import Mathlib

/-!
Shallow embedding of the amortization engine `calculateAmortization`
(src/unnamed/part_000) of the business line-of-credit calculator.

Modelling conventions:
* JavaScript numbers are modelled as exact rationals (`ℚ`); the engine's
  arithmetic is plain field arithmetic plus integer-exponent `Math.pow`,
  so `ℚ` is an exact carrier for it (binary floating point round-off is
  out of scope of this embedding).
* `termInYears` is modelled as an integer (`ℤ`): the caller supplies whole
  years (the term input steps by 1 year), and both the repayment loop bound
  and the `Math.pow(1 + r, n)` exponent are integers exactly when the term
  is integral.
* `rateChanges[k].period` is an integer (parsed with `parseInt` by the
  caller) and is modelled as `ℕ`.
* The JavaScript `%` operator on non-negative operands is floored
  (= truncated) remainder; `jsMod` below implements it on `ℚ`.
* Mutable loop state is threaded explicitly through a state structure
  `SimState`; the two `for` loops become folds over `List.range`.
-/

namespace BusinessLoc

/- The Batteries definitions of rational arithmetic are `@[irreducible]`,
which blocks `decide`-style evaluation of the engine on concrete
configurations; restore default reducibility for this development. -/
attribute [local semireducible] Rat.mul Rat.inv Rat.add Rat.sub Rat.ofScientific

set_option maxRecDepth 1000000

inductive Cadence
  | monthly
  | weekly
deriving DecidableEq

inductive PaymentPolicy
  | interestOnly
  | percentOfBalance
  | interestPlusPrincipalFloor
deriving DecidableEq

inductive InterestMethod
  | endOfPeriod
  | adb
deriving DecidableEq

structure RateChange where
  period : ℕ
  newTotalAPR : ℚ
deriving DecidableEq

structure Config where
  drawSchedule : List ℚ
  initialDrawAmount : ℚ
  annualRate : ℚ
  termInYears : ℤ
  originationFeePercent : ℚ
  annualFee : ℚ
  drawFee : ℚ
  inactivityFee : ℚ
  monthlyMaintenanceFee : ℚ
  borrowLimit : ℚ
  repaymentCadence : Cadence
  paymentPolicy : PaymentPolicy
  balancePaymentPercent : ℚ
  principalFloorAmount : ℚ
  rateChanges : List RateChange
  interestCalculationMethod : InterestMethod
deriving DecidableEq

/-- One row of the produced schedule (interface `AmortizationData` in
src/types.ts). -/
structure AmortizationData where
  period : ℕ
  payment : ℚ
  interest : ℚ
  principal : ℚ
  remainingBalance : ℚ
  drawAmount : ℚ
  beginningBalance : ℚ
  availableCredit : ℚ
  feesThisPeriod : ℚ
  totalPaymentThisPeriod : ℚ
deriving DecidableEq, Inhabited

/-- The result record (interface `CalculationResult` in src/types.ts). -/
structure CalculationResult where
  principalAndInterestPayment : ℚ
  peakBalance : ℚ
  totalInterest : ℚ
  totalPayment : ℚ
  totalFees : ℚ
  effectiveAPR : ℚ
  schedule : List AmortizationData
deriving DecidableEq

/-- The mutable working state of the simulation: the local variables of
`calculateAmortization` threaded through the two loops.  The repayment-only
variables (`repaymentPeriodicRate`, `payment`) sit unused at 0 during the
draw phase, matching the source where `principalAndInterestPayment` is
declared 0 before the repayment block. -/
structure SimState where
  remainingBalance : ℚ
  totalInterest : ℚ
  totalDraws : ℚ
  totalFees : ℚ
  peakBalance : ℚ
  currentAnnualRate : ℚ
  repaymentPeriodicRate : ℚ
  payment : ℚ
  schedule : List AmortizationData
deriving DecidableEq

/-- `periodsPerYear = repaymentCadence === 'monthly' ? 12 : 52`. -/
def periodsPerYear (cfg : Config) : ℕ :=
  match cfg.repaymentCadence with
  | .monthly => 12
  | .weekly => 52

/-- `DRAW_PERIOD_YEARS = 2`; `drawPeriods = 2 * periodsPerYear`. -/
def drawPeriods (cfg : Config) : ℕ := 2 * periodsPerYear cfg

/-- `periodsPerMonth = periodsPerYear / 12` (fractional for weekly). -/
def periodsPerMonth (cfg : Config) : ℚ := (periodsPerYear cfg : ℚ) / 12

/-- JavaScript `%` (floored = truncated remainder on the non-negative
operands the engine uses it on). -/
def jsMod (a b : ℚ) : ℚ := a - b * (⌊a / b⌋ : ℚ)

/-- `(i - 1) % periodsPerMonth === 0`: period `i` is the first period of a
calendar month. -/
def firstOfMonth (cfg : Config) (i : ℕ) : Prop :=
  jsMod ((i : ℚ) - 1) (periodsPerMonth cfg) = 0

instance (cfg : Config) (i : ℕ) : Decidable (firstOfMonth cfg i) := by
  unfold firstOfMonth; infer_instance

/-- `(g - 1) % periodsPerYear === 0`: global period `g` is the first period
of a year. -/
def firstOfYear (cfg : Config) (g : ℕ) : Prop :=
  (g - 1) % periodsPerYear cfg = 0

instance (cfg : Config) (g : ℕ) : Decidable (firstOfYear cfg g) := by
  unfold firstOfYear; infer_instance

/-- `Math.floor((i - 1) / periodsPerMonth)`. -/
def monthIndex (cfg : Config) (i : ℕ) : ℤ :=
  ⌊((i : ℚ) - 1) / periodsPerMonth cfg⌋

/-- Stable ascending insertion of a rate change into an already sorted
list: equal periods keep their original relative order, like the stable
`Array.prototype.sort` with comparator `(a, b) => a.period - b.period`. -/
def insertByPeriod (x : RateChange) : List RateChange → List RateChange
  | [] => [x]
  | y :: ys => if x.period < y.period then x :: y :: ys else y :: insertByPeriod x ys

/-- `[...rateChanges].sort((a, b) => a.period - b.period)` (stable). -/
def sortByPeriod : List RateChange → List RateChange
  | [] => []
  | x :: xs => insertByPeriod x (sortByPeriod xs)

/-- `sortedRateChanges.find(rc => rc.period === g)`. -/
def findRate (cfg : Config) (g : ℕ) : Option RateChange :=
  (sortByPeriod cfg.rateChanges).find? (fun rc => rc.period == g)

/-- Annual rate in effect for period `g`: the rate-change lookup performed
at the start of each loop iteration. -/
def aprAt (cfg : Config) (prevApr : ℚ) (g : ℕ) : ℚ :=
  match findRate cfg g with
  | some rc => rc.newTotalAPR
  | none => prevApr

/-- Flat periodic fees charged at global period `g`: maintenance fee on the
first period of a month, annual fee on the first period of a year. -/
def periodFees (cfg : Config) (g : ℕ) : ℚ :=
  (if firstOfMonth cfg g then cfg.monthlyMaintenanceFee else 0) +
    (if firstOfYear cfg g then cfg.annualFee else 0)

/-- The actual draw of draw-phase period `i` from pre-draw balance `bal`:
first period of a month, month index inside `drawSchedule`, requested
amount clamped to `max(0, min(requested, borrowLimit - remainingBalance))`;
otherwise 0. -/
def drawAt (cfg : Config) (bal : ℚ) (i : ℕ) : ℚ :=
  if firstOfMonth cfg i ∧ monthIndex cfg i < (cfg.drawSchedule.length : ℤ) then
    max 0 (min (cfg.drawSchedule.getD (monthIndex cfg i).toNat 0) (cfg.borrowLimit - bal))
  else 0

/-- Draw-related fees of draw-phase period `i` with actual draw `d`:
percentage origination fee plus flat draw fee on a positive draw, otherwise
the inactivity fee unless `i = 1` absorbed a nonzero `initialDrawAmount`
(`if (i > 1 || initialDrawAmount === 0)`). -/
def drawRelatedFees (cfg : Config) (d : ℚ) (i : ℕ) : ℚ :=
  if 0 < d then d * (cfg.originationFeePercent / 100) + cfg.drawFee
  else if 1 < i ∨ cfg.initialDrawAmount = 0 then cfg.inactivityFee
  else 0

/-- `daysInPeriod = repaymentCadence === 'monthly' ? 365.25 / 12 : 7`. -/
def daysInPeriod (cfg : Config) : ℚ :=
  match cfg.repaymentCadence with
  | .monthly => (1461 / 4 : ℚ) / 12
  | .weekly => 7

/-- Interest for one period on balance `bal` at annual rate `apr`:
average-daily-balance or end-of-period. -/
def interestFor (cfg : Config) (apr bal : ℚ) : ℚ :=
  match cfg.interestCalculationMethod with
  | .adb => bal * (apr / 100 / (1461 / 4)) * daysInPeriod cfg
  | .endOfPeriod => bal * (apr / 100 / (periodsPerYear cfg : ℚ))

/-- Draw-phase payment and principal (in that order) for interest
`interest` on post-draw balance `bal`, per the payment policy, with the
final overpayment clamp (`principalPaid > remainingBalance` caps the
principal at the balance and recomputes the payment). -/
def drawPayPrin (cfg : Config) (interest bal : ℚ) : ℚ × ℚ :=
  let pp : ℚ × ℚ :=
    match cfg.paymentPolicy with
    | .percentOfBalance =>
        let pay := max interest (bal * (cfg.balancePaymentPercent / 100))
        (pay, pay - interest)
    | .interestPlusPrincipalFloor =>
        (interest + cfg.principalFloorAmount, cfg.principalFloorAmount)
    | .interestOnly => (interest, 0)
  if pp.2 > bal then (bal + interest, bal) else pp

/-- The schedule row produced by draw-phase period `i` from state `s`. -/
def drawEntry (cfg : Config) (s : SimState) (i : ℕ) : AmortizationData :=
  let apr := aprAt cfg s.currentAnnualRate i
  let d := drawAt cfg s.remainingBalance i
  let fees := periodFees cfg i + drawRelatedFees cfg d i
  let bal1 := s.remainingBalance + d
  let interest := interestFor cfg apr bal1
  let pp := drawPayPrin cfg interest bal1
  let bal2 := bal1 - pp.2
  { period := i
    payment := pp.1
    interest := interest
    principal := pp.2
    remainingBalance := bal2
    drawAmount := d
    beginningBalance := s.remainingBalance
    availableCredit := cfg.borrowLimit - bal2
    feesThisPeriod := fees
    totalPaymentThisPeriod := pp.1 + fees }

/-- One iteration of the draw-period loop. -/
def drawStep (cfg : Config) (s : SimState) (i : ℕ) : SimState :=
  let e := drawEntry cfg s i
  let bal1 := s.remainingBalance + e.drawAmount
  { remainingBalance := e.remainingBalance
    totalInterest := s.totalInterest + e.interest
    totalDraws := s.totalDraws + e.drawAmount
    totalFees := s.totalFees + e.feesThisPeriod
    peakBalance := if bal1 > s.peakBalance then bal1 else s.peakBalance
    currentAnnualRate := aprAt cfg s.currentAnnualRate i
    repaymentPeriodicRate := s.repaymentPeriodicRate
    payment := s.payment
    schedule := s.schedule ++ [e] }

/-- The state just before period 1: zeroed totals, the initial draw
(clamped to `max(0, min(initialDrawAmount, borrowLimit))` when
`initialDrawAmount > 0`) applied to balance, total draws and fees, and
`peakBalance` recorded as the resulting balance. -/
def initState (cfg : Config) : SimState :=
  let base : SimState :=
    { remainingBalance := 0, totalInterest := 0, totalDraws := 0, totalFees := 0
      peakBalance := 0, currentAnnualRate := cfg.annualRate
      repaymentPeriodicRate := 0, payment := 0, schedule := [] }
  if 0 < cfg.initialDrawAmount then
    let a := max 0 (min cfg.initialDrawAmount cfg.borrowLimit)
    { base with
      remainingBalance := a
      totalDraws := a
      totalFees := a * (cfg.originationFeePercent / 100) + cfg.drawFee
      peakBalance := a }
  else base

/-- The state after the first `k` draw-phase periods. -/
def drawStateAt (cfg : Config) (k : ℕ) : SimState :=
  (List.range k).foldl (fun s j => drawStep cfg s (j + 1)) (initState cfg)

/-- The state at the end of the draw phase. -/
def runDraw (cfg : Config) : SimState := drawStateAt cfg (drawPeriods cfg)

/-- `remainingTermInPeriods = termInYears * periodsPerYear`, as the number
of repayment-loop iterations actually executed. -/
def termPeriods (cfg : Config) : ℕ := (cfg.termInYears * (periodsPerYear cfg : ℤ)).toNat

/-- The level-payment annuity formula
`P * r * (1+r)^n / ((1+r)^n - 1)`. -/
def annuity (P r : ℚ) (n : ℕ) : ℚ :=
  P * r * (1 + r) ^ n / ((1 + r) ^ n - 1)

/-- The annuity-or-straight-line rule used at every re-amortization:
annuity payment when the periodic rate is positive, else straight line
`bal / m`. -/
def reamortize (bal r : ℚ) (m : ℕ) : ℚ :=
  if 0 < r then annuity bal r m else bal / (m : ℚ)

/-- The initial repayment setup: `repaymentPeriodicRate` from the current
annual rate, and the first level payment (annuity when the term and rate
are positive, straight line for a zero/negative rate, 0 for an empty
term). -/
def repayInit (cfg : Config) (s : SimState) : SimState :=
  let r := s.currentAnnualRate / 100 / (periodsPerYear cfg : ℚ)
  let nZ := cfg.termInYears * (periodsPerYear cfg : ℤ)
  let pay :=
    if 0 < nZ ∧ 0 < r then annuity s.remainingBalance r (termPeriods cfg)
    else if 0 < nZ then s.remainingBalance / (termPeriods cfg : ℚ)
    else 0
  { s with repaymentPeriodicRate := r, payment := pay }

/-- The rate-change check at the start of repayment local period `i` (of
`n`): on a hit, update the rate and, when the balance and the periods left
are positive, re-amortize the level payment from the current balance over
`n - (i - 1)` periods. -/
def repayReset (cfg : Config) (n : ℕ) (s : SimState) (i : ℕ) : SimState :=
  match findRate cfg (drawPeriods cfg + i) with
  | none => s
  | some rc =>
    let r := rc.newTotalAPR / 100 / (periodsPerYear cfg : ℚ)
    let pl := n - (i - 1)
    let pay :=
      if 0 < s.remainingBalance ∧ 0 < pl then reamortize s.remainingBalance r pl
      else s.payment
    { s with currentAnnualRate := rc.newTotalAPR, repaymentPeriodicRate := r, payment := pay }

/-- Repayment-phase interest on the current balance: ADB from the current
annual rate, end-of-period from the stored periodic rate. -/
def repayInterest (cfg : Config) (s : SimState) : ℚ :=
  match cfg.interestCalculationMethod with
  | .adb => s.remainingBalance * (s.currentAnnualRate / 100 / (1461 / 4)) * daysInPeriod cfg
  | .endOfPeriod => s.remainingBalance * s.repaymentPeriodicRate

/-- The schedule row produced by repayment local period `i` from the
post-rate-change state `s`: principal is `payment - interest` clamped to
the remaining balance, the recorded payment is the (unclamped) level
payment, and the recorded ending balance is floored at 0. -/
def repayEntry (cfg : Config) (s : SimState) (i : ℕ) : AmortizationData :=
  let g := drawPeriods cfg + i
  let fees := periodFees cfg g
  let interest := repayInterest cfg s
  let prin0 := s.payment - interest
  let prin := if s.remainingBalance - prin0 < 0 then s.remainingBalance else prin0
  let bal2 := s.remainingBalance - prin
  { period := g
    payment := s.payment
    interest := interest
    principal := prin
    remainingBalance := if bal2 < 0 then 0 else bal2
    drawAmount := 0
    beginningBalance := s.remainingBalance
    availableCredit := cfg.borrowLimit - bal2
    feesThisPeriod := fees
    totalPaymentThisPeriod := s.payment + fees }

/-- One iteration of the repayment loop: rate-change check, fees, interest,
principal with clamp, balance update, row append. -/
def repayStep (cfg : Config) (n : ℕ) (s : SimState) (i : ℕ) : SimState :=
  let s1 := repayReset cfg n s i
  let e := repayEntry cfg s1 i
  { remainingBalance := s1.remainingBalance - e.principal
    totalInterest := s1.totalInterest + e.interest
    totalDraws := s1.totalDraws
    totalFees := s1.totalFees + e.feesThisPeriod
    peakBalance := s1.peakBalance
    currentAnnualRate := s1.currentAnnualRate
    repaymentPeriodicRate := s1.repaymentPeriodicRate
    payment := s1.payment
    schedule := s1.schedule ++ [e] }

/-- The state after the first `k` repayment periods, starting from the
draw-phase end state `s0` (entered only with a positive balance). -/
def repayStateAt (cfg : Config) (s0 : SimState) (k : ℕ) : SimState :=
  (List.range k).foldl (fun s j => repayStep cfg (termPeriods cfg) s (j + 1)) (repayInit cfg s0)

/-- The whole repayment phase: run only when the draw phase leaves a
positive balance. -/
def runRepay (cfg : Config) (s0 : SimState) : SimState :=
  if 0 < s0.remainingBalance then repayStateAt cfg s0 (termPeriods cfg) else s0

/-- The all-zero result returned by the guard clause. -/
def zeroResult : CalculationResult :=
  { principalAndInterestPayment := 0, peakBalance := 0, totalInterest := 0
    totalPayment := 0, totalFees := 0, effectiveAPR := 0, schedule := [] }

/-- The engine `calculateAmortization`, assembled from the guard, the two
phases and the summary computation. -/
def calculateAmortization (cfg : Config) : CalculationResult :=
  if cfg.annualRate < 0 ∨ cfg.termInYears ≤ 0 then zeroResult
  else
    let s := runRepay cfg (runDraw cfg)
    let totalLoanDurationYears : ℚ := (s.schedule.length : ℚ) / (periodsPerYear cfg : ℚ)
    let effectiveAPR :=
      if 0 < s.totalDraws ∧ 0 < totalLoanDurationYears then
        ((s.totalInterest + s.totalFees) / s.totalDraws / totalLoanDurationYears) * 100
      else 0
    { principalAndInterestPayment := s.payment
      peakBalance := s.peakBalance
      totalInterest := s.totalInterest
      totalPayment := s.totalDraws + s.totalInterest + s.totalFees
      totalFees := s.totalFees
      effectiveAPR := effectiveAPR
      schedule := s.schedule }

/-! ### Structural lemmas: state recursions and schedule lengths -/

theorem drawStateAt_zero (cfg : Config) : drawStateAt cfg 0 = initState cfg := rfl

theorem drawStateAt_succ (cfg : Config) (k : ℕ) :
    drawStateAt cfg (k + 1) = drawStep cfg (drawStateAt cfg k) (k + 1) := by
  unfold drawStateAt
  rw [List.range_succ, List.foldl_append]
  rfl

theorem repayStateAt_zero (cfg : Config) (s0 : SimState) :
    repayStateAt cfg s0 0 = repayInit cfg s0 := rfl

theorem repayStateAt_succ (cfg : Config) (s0 : SimState) (k : ℕ) :
    repayStateAt cfg s0 (k + 1) =
      repayStep cfg (termPeriods cfg) (repayStateAt cfg s0 k) (k + 1) := by
  unfold repayStateAt
  rw [List.range_succ, List.foldl_append]
  rfl

theorem drawStep_schedule (cfg : Config) (s : SimState) (i : ℕ) :
    (drawStep cfg s i).schedule = s.schedule ++ [drawEntry cfg s i] := rfl

theorem repayStep_schedule (cfg : Config) (n : ℕ) (s : SimState) (i : ℕ) :
    (repayStep cfg n s i).schedule =
      s.schedule ++ [repayEntry cfg (repayReset cfg n s i) i] := by
  unfold repayStep repayReset
  cases h : findRate cfg (drawPeriods cfg + i) <;> rfl

theorem initState_schedule (cfg : Config) : (initState cfg).schedule = [] := by
  unfold initState
  split <;> rfl

theorem repayInit_schedule (cfg : Config) (s : SimState) :
    (repayInit cfg s).schedule = s.schedule := rfl

theorem repayInit_remainingBalance (cfg : Config) (s : SimState) :
    (repayInit cfg s).remainingBalance = s.remainingBalance := rfl

theorem drawStateAt_schedule_length (cfg : Config) (k : ℕ) :
    (drawStateAt cfg k).schedule.length = k := by
  induction k with
  | zero => simp [drawStateAt_zero, initState_schedule]
  | succ k ih =>
    rw [drawStateAt_succ, drawStep_schedule]
    simp [ih]

theorem repayStateAt_schedule_length (cfg : Config) (s0 : SimState) (k : ℕ) :
    (repayStateAt cfg s0 k).schedule.length = s0.schedule.length + k := by
  induction k with
  | zero => simp [repayStateAt_zero, repayInit_schedule]
  | succ k ih =>
    rw [repayStateAt_succ, repayStep_schedule]
    simp [ih]
    omega

theorem runDraw_schedule_length (cfg : Config) :
    (runDraw cfg).schedule.length = drawPeriods cfg :=
  drawStateAt_schedule_length cfg (drawPeriods cfg)

theorem periodsPerYear_pos (cfg : Config) : 0 < periodsPerYear cfg := by
  unfold periodsPerYear
  cases cfg.repaymentCadence <;> decide

theorem termPeriods_cast (cfg : Config) (h : 0 < cfg.termInYears) :
    (termPeriods cfg : ℤ) = cfg.termInYears * (periodsPerYear cfg : ℤ) := by
  unfold termPeriods
  rw [Int.toNat_of_nonneg]
  positivity

theorem guard_false (cfg : Config) (h1 : 0 ≤ cfg.annualRate) (h2 : 0 < cfg.termInYears) :
    ¬(cfg.annualRate < 0 ∨ cfg.termInYears ≤ 0) := by
  push_neg
  exact ⟨h1, h2⟩

theorem calc_schedule_eq (cfg : Config) (h1 : 0 ≤ cfg.annualRate) (h2 : 0 < cfg.termInYears) :
    (calculateAmortization cfg).schedule = (runRepay cfg (runDraw cfg)).schedule := by
  unfold calculateAmortization
  rw [if_neg (guard_false cfg h1 h2)]

/-- The benign exemplar configuration used as a witness input: the spec's
worked scenario (50000 drawn in month 1 against a 100000 limit at 9.75 %,
5-year term, monthly cadence, interest-only draw phase, no fees). -/
def cfgDemo : Config :=
  { drawSchedule := [50000], initialDrawAmount := 0, annualRate := 39 / 4, termInYears := 5
    originationFeePercent := 0, annualFee := 0, drawFee := 0, inactivityFee := 0
    monthlyMaintenanceFee := 0, borrowLimit := 100000, repaymentCadence := .monthly
    paymentPolicy := .interestOnly, balancePaymentPercent := 0, principalFloorAmount := 0
    rateChanges := [], interestCalculationMethod := .endOfPeriod }

/-- C1: for every configuration passing the guard (`annualRate ≥ 0`,
`termInYears > 0`), the schedule has `drawPeriods + termInYears *
periodsPerYear` entries when the post-draw-phase balance is positive, and
exactly `drawPeriods` entries when that balance is zero. -/
theorem C1_schedule_length (cfg : Config)
    (h1 : 0 ≤ cfg.annualRate) (h2 : 0 < cfg.termInYears) :
    (0 < (runDraw cfg).remainingBalance →
      ((calculateAmortization cfg).schedule.length : ℤ) =
        (drawPeriods cfg : ℤ) + cfg.termInYears * (periodsPerYear cfg : ℤ)) ∧
    ((runDraw cfg).remainingBalance = 0 →
      (calculateAmortization cfg).schedule.length = drawPeriods cfg) := by
  have hc := calc_schedule_eq cfg h1 h2
  constructor
  · intro hb
    rw [hc]
    unfold runRepay
    rw [if_pos hb, repayStateAt_schedule_length, runDraw_schedule_length]
    push_cast
    rw [termPeriods_cast cfg h2]
  · intro hb
    rw [hc]
    unfold runRepay
    rw [if_neg (by rw [hb]; exact lt_irrefl 0), runDraw_schedule_length]

theorem C1_schedule_length_witness :
    0 ≤ cfgDemo.annualRate ∧ 0 < cfgDemo.termInYears ∧
      0 < (runDraw cfgDemo).remainingBalance ∧
      ((calculateAmortization cfgDemo).schedule.length : ℤ) =
        (drawPeriods cfgDemo : ℤ) + cfgDemo.termInYears * (periodsPerYear cfgDemo : ℤ) :=
  ⟨by decide, by decide, by decide,
    (C1_schedule_length cfgDemo (by decide) (by decide)).1 (by decide)⟩

/-- The degenerate configuration of the spec (`annualRate = -1`). -/
def cfgNegRate : Config :=
  { cfgDemo with annualRate := -1 }

/-- C4: a negative rate or non-positive term short-circuits to the all-zero
result with an empty schedule.  (No error can be raised on any input: the
embedding of the engine is a total function by construction.) -/
theorem C4_guard_zero_result (cfg : Config)
    (h : cfg.annualRate < 0 ∨ cfg.termInYears ≤ 0) :
    calculateAmortization cfg = zeroResult ∧
      (calculateAmortization cfg).principalAndInterestPayment = 0 ∧
      (calculateAmortization cfg).peakBalance = 0 ∧
      (calculateAmortization cfg).totalInterest = 0 ∧
      (calculateAmortization cfg).totalPayment = 0 ∧
      (calculateAmortization cfg).totalFees = 0 ∧
      (calculateAmortization cfg).effectiveAPR = 0 ∧
      (calculateAmortization cfg).schedule = [] := by
  have hz : calculateAmortization cfg = zeroResult := by
    unfold calculateAmortization
    rw [if_pos h]
  rw [hz]
  exact ⟨rfl, rfl, rfl, rfl, rfl, rfl, rfl, rfl⟩

theorem C4_guard_zero_result_witness :
    cfgNegRate.annualRate < 0 ∧ calculateAmortization cfgNegRate = zeroResult :=
  ⟨by decide, (C4_guard_zero_result cfgNegRate (Or.inl (by decide))).1⟩

/-! ### Projection lemmas for the step functions -/

theorem drawEntry_beginningBalance (cfg : Config) (s : SimState) (i : ℕ) :
    (drawEntry cfg s i).beginningBalance = s.remainingBalance := rfl

theorem drawEntry_remainingBalance (cfg : Config) (s : SimState) (i : ℕ) :
    (drawEntry cfg s i).remainingBalance =
      (s.remainingBalance + drawAt cfg s.remainingBalance i) -
        (drawPayPrin cfg
          (interestFor cfg (aprAt cfg s.currentAnnualRate i)
            (s.remainingBalance + drawAt cfg s.remainingBalance i))
          (s.remainingBalance + drawAt cfg s.remainingBalance i)).2 := rfl

theorem drawStep_remainingBalance (cfg : Config) (s : SimState) (i : ℕ) :
    (drawStep cfg s i).remainingBalance = (drawEntry cfg s i).remainingBalance := rfl

theorem repayReset_remainingBalance (cfg : Config) (n : ℕ) (s : SimState) (i : ℕ) :
    (repayReset cfg n s i).remainingBalance = s.remainingBalance := by
  unfold repayReset
  cases findRate cfg (drawPeriods cfg + i) <;> rfl

theorem repayReset_schedule (cfg : Config) (n : ℕ) (s : SimState) (i : ℕ) :
    (repayReset cfg n s i).schedule = s.schedule := by
  unfold repayReset
  cases findRate cfg (drawPeriods cfg + i) <;> rfl

theorem repayReset_peakBalance (cfg : Config) (n : ℕ) (s : SimState) (i : ℕ) :
    (repayReset cfg n s i).peakBalance = s.peakBalance := by
  unfold repayReset
  cases findRate cfg (drawPeriods cfg + i) <;> rfl

theorem repayEntry_beginningBalance (cfg : Config) (s : SimState) (i : ℕ) :
    (repayEntry cfg s i).beginningBalance = s.remainingBalance := rfl

theorem repayStep_remainingBalance (cfg : Config) (n : ℕ) (s : SimState) (i : ℕ) :
    (repayStep cfg n s i).remainingBalance =
      (repayReset cfg n s i).remainingBalance -
        (repayEntry cfg (repayReset cfg n s i) i).principal := rfl

theorem repayStep_peakBalance (cfg : Config) (n : ℕ) (s : SimState) (i : ℕ) :
    (repayStep cfg n s i).peakBalance = s.peakBalance := by
  rw [show (repayStep cfg n s i).peakBalance = (repayReset cfg n s i).peakBalance from rfl,
    repayReset_peakBalance]

/-! ### Balance non-negativity (C3) -/

/-- The two-sided clamp `max(0, min(requested, available))` is
non-negative. -/
theorem drawAt_nonneg (cfg : Config) (bal : ℚ) (i : ℕ) : 0 ≤ drawAt cfg bal i := by
  unfold drawAt
  split
  · exact le_max_left 0 _
  · exact le_refl 0

/-- The final clamp of `drawPayPrin`, in isolation: whatever the policy
proposed, the chosen principal never exceeds the balance. -/
theorem clamp_principal_le (interest bal : ℚ) (pp : ℚ × ℚ) :
    0 ≤ bal - (if pp.2 > bal then (bal + interest, bal) else pp).2 := by
  split
  · simp
  · next h => linarith [not_lt.1 h]

/-- The draw-phase overpayment clamp never pushes the post-payment balance
below 0 (and on a short balance it lands exactly on 0). -/
theorem drawPayPrin_principal_le (cfg : Config) (interest bal : ℚ) :
    0 ≤ bal - (drawPayPrin cfg interest bal).2 := by
  unfold drawPayPrin
  exact clamp_principal_le interest bal _

theorem drawStep_bal_nonneg (cfg : Config) (s : SimState) (i : ℕ) :
    0 ≤ (drawStep cfg s i).remainingBalance := by
  rw [drawStep_remainingBalance, drawEntry_remainingBalance]
  exact drawPayPrin_principal_le cfg _ _

theorem repayEntry_principal (cfg : Config) (s : SimState) (i : ℕ) :
    (repayEntry cfg s i).principal =
      if s.remainingBalance - (s.payment - repayInterest cfg s) < 0 then s.remainingBalance
      else s.payment - repayInterest cfg s := rfl

theorem repayEntry_remainingBalance_eq (cfg : Config) (s : SimState) (i : ℕ) :
    (repayEntry cfg s i).remainingBalance =
      if s.remainingBalance - (repayEntry cfg s i).principal < 0 then 0
      else s.remainingBalance - (repayEntry cfg s i).principal := rfl

/-- The repayment-phase principal clamp never pushes the balance below
0. -/
theorem repay_sub_principal_nonneg (cfg : Config) (s : SimState) (i : ℕ) :
    0 ≤ s.remainingBalance - (repayEntry cfg s i).principal := by
  rw [repayEntry_principal]
  split
  · simp
  · next h => linarith [not_lt.1 h]

theorem repayStep_bal_nonneg (cfg : Config) (n : ℕ) (s : SimState) (i : ℕ) :
    0 ≤ (repayStep cfg n s i).remainingBalance := by
  rw [repayStep_remainingBalance]
  exact repay_sub_principal_nonneg cfg _ i

theorem repayEntry_remainingBalance_nonneg (cfg : Config) (s : SimState) (i : ℕ) :
    0 ≤ (repayEntry cfg s i).remainingBalance := by
  rw [repayEntry_remainingBalance_eq]
  split
  · exact le_refl (0 : ℚ)
  · next h => exact le_of_not_lt h

/-- Invariant carried through both phases for C3. -/
def BalInv (s : SimState) : Prop :=
  0 ≤ s.remainingBalance ∧
    ∀ e ∈ s.schedule, 0 ≤ e.remainingBalance ∧ 0 ≤ e.beginningBalance

theorem initState_balInv (cfg : Config) : BalInv (initState cfg) := by
  constructor
  · unfold initState
    split
    · exact le_max_left 0 _
    · exact le_refl 0
  · rw [initState_schedule]
    intro e he
    cases he

theorem drawStep_balInv (cfg : Config) (s : SimState) (i : ℕ) (h : BalInv s) :
    BalInv (drawStep cfg s i) := by
  refine ⟨drawStep_bal_nonneg cfg s i, ?_⟩
  rw [drawStep_schedule]
  intro e he
  rcases List.mem_append.1 he with h1 | h1
  · exact h.2 e h1
  · rcases List.mem_singleton.1 h1 with rfl
    refine ⟨?_, ?_⟩
    · rw [← drawStep_remainingBalance]
      exact drawStep_bal_nonneg cfg s i
    · rw [drawEntry_beginningBalance]
      exact h.1

theorem repayStep_balInv (cfg : Config) (n : ℕ) (s : SimState) (i : ℕ) (h : BalInv s) :
    BalInv (repayStep cfg n s i) := by
  refine ⟨repayStep_bal_nonneg cfg n s i, ?_⟩
  rw [repayStep_schedule]
  intro e he
  rcases List.mem_append.1 he with h1 | h1
  · exact h.2 e h1
  · rcases List.mem_singleton.1 h1 with rfl
    refine ⟨repayEntry_remainingBalance_nonneg cfg _ i, ?_⟩
    rw [repayEntry_beginningBalance, repayReset_remainingBalance]
    exact h.1

theorem drawStateAt_balInv (cfg : Config) (k : ℕ) : BalInv (drawStateAt cfg k) := by
  induction k with
  | zero => exact initState_balInv cfg
  | succ k ih => rw [drawStateAt_succ]; exact drawStep_balInv cfg _ _ ih

theorem repayInit_balInv (cfg : Config) (s : SimState) (h : BalInv s) :
    BalInv (repayInit cfg s) := by
  exact ⟨h.1, by rw [repayInit_schedule]; exact h.2⟩

theorem repayStateAt_balInv (cfg : Config) (s0 : SimState) (h : BalInv s0) (k : ℕ) :
    BalInv (repayStateAt cfg s0 k) := by
  induction k with
  | zero => exact repayInit_balInv cfg s0 h
  | succ k ih => rw [repayStateAt_succ]; exact repayStep_balInv cfg _ _ _ ih

theorem runRepay_balInv (cfg : Config) (s0 : SimState) (h : BalInv s0) :
    BalInv (runRepay cfg s0) := by
  unfold runRepay
  split
  · exact repayStateAt_balInv cfg s0 h (termPeriods cfg)
  · exact h

/-- C3: in every entry of the returned schedule both the recorded ending
balance and the recorded beginning balance are non-negative, and the
internal balance of the simulation is non-negative at every point of both
phases (after the initial draw, after each draw-phase period, and after
each repayment period). -/
theorem C3_balance_nonneg (cfg : Config) :
    (∀ e ∈ (calculateAmortization cfg).schedule,
        0 ≤ e.remainingBalance ∧ 0 ≤ e.beginningBalance) ∧
      (∀ k, 0 ≤ (drawStateAt cfg k).remainingBalance) ∧
      (∀ k, 0 ≤ (repayStateAt cfg (runDraw cfg) k).remainingBalance) := by
  have hD : ∀ k, BalInv (drawStateAt cfg k) := drawStateAt_balInv cfg
  have hR : ∀ k, BalInv (repayStateAt cfg (runDraw cfg) k) :=
    repayStateAt_balInv cfg (runDraw cfg) (hD (drawPeriods cfg))
  refine ⟨?_, fun k => (hD k).1, fun k => (hR k).1⟩
  intro e he
  unfold calculateAmortization at he
  by_cases hg : cfg.annualRate < 0 ∨ cfg.termInYears ≤ 0
  · rw [if_pos hg] at he
    cases he
  · rw [if_neg hg] at he
    exact (runRepay_balInv cfg (runDraw cfg) (hD (drawPeriods cfg))).2 e he

theorem C3_balance_nonneg_witness :
    (calculateAmortization cfgDemo).schedule.headD default ∈
        (calculateAmortization cfgDemo).schedule ∧
      0 ≤ ((calculateAmortization cfgDemo).schedule.headD default).remainingBalance :=
  ⟨by decide, ((C3_balance_nonneg cfgDemo).1 _ (by decide)).1⟩

/-! ### Connected trace (C10) -/

/-- Each entry's beginning balance is the previous entry's recorded ending
balance. -/
def Connected (l : List AmortizationData) : Prop :=
  List.Chain' (fun a b => b.beginningBalance = a.remainingBalance) l

/-- Trace invariant: the accumulated schedule is connected, starts at the
post-initial-draw balance `b0`, and its last recorded ending balance is
the live balance (which stays non-negative). -/
def TraceInv (b0 : ℚ) (s : SimState) : Prop :=
  Connected s.schedule ∧
    (∀ e, s.schedule.head? = some e → e.beginningBalance = b0) ∧
    (match s.schedule.getLast? with
     | none => s.remainingBalance = b0
     | some e => e.remainingBalance = s.remainingBalance) ∧
    0 ≤ s.remainingBalance

/-- Appending one row `e` with `e.beginningBalance` = the live balance and
`e.remainingBalance` = the new live balance preserves the trace
invariant. -/
theorem traceInv_append (b0 : ℚ) (s : SimState) (s' : SimState) (e : AmortizationData)
    (h : TraceInv b0 s)
    (hs : s'.schedule = s.schedule ++ [e])
    (hb : e.beginningBalance = s.remainingBalance)
    (hr : e.remainingBalance = s'.remainingBalance)
    (hnn : 0 ≤ s'.remainingBalance) :
    TraceInv b0 s' := by
  obtain ⟨h1, h2, h3, h4⟩ := h
  refine ⟨?_, ?_, ?_, hnn⟩
  · rw [hs]
    rw [Connected, List.chain'_append]
    refine ⟨h1, List.chain'_singleton e, ?_⟩
    intro x hx y hy
    rcases List.mem_singleton.1 (by simpa using hy) with rfl
    rw [hb]
    revert h3
    rw [hx]
    intro h3
    exact h3.symm
  · intro f hf
    rw [hs] at hf
    cases hsc : s.schedule with
    | nil =>
      rw [hsc] at hf h3
      simp at hf h3
      rw [← hf, hb, h3]
    | cons a l =>
      rw [hsc] at hf
      simp at hf
      apply h2
      rw [hsc]
      simpa using hf
  · rw [hs, List.getLast?_concat]
    exact hr

theorem initState_traceInv (cfg : Config) :
    TraceInv (initState cfg).remainingBalance (initState cfg) := by
  refine ⟨?_, ?_, ?_, (initState_balInv cfg).1⟩
  · rw [Connected, initState_schedule]
    exact List.chain'_nil
  · intro e he
    rw [initState_schedule] at he
    cases he
  · rw [initState_schedule]
    simp

theorem drawStep_traceInv (cfg : Config) (b0 : ℚ) (s : SimState) (i : ℕ)
    (h : TraceInv b0 s) : TraceInv b0 (drawStep cfg s i) := by
  refine traceInv_append b0 s _ (drawEntry cfg s i) h (drawStep_schedule cfg s i)
    (drawEntry_beginningBalance cfg s i) ?_ (drawStep_bal_nonneg cfg s i)
  rw [drawStep_remainingBalance]

theorem repayStep_traceInv (cfg : Config) (n : ℕ) (b0 : ℚ) (s : SimState) (i : ℕ)
    (h : TraceInv b0 s) : TraceInv b0 (repayStep cfg n s i) := by
  refine traceInv_append b0 s _ (repayEntry cfg (repayReset cfg n s i) i) h
    (repayStep_schedule cfg n s i) ?_ ?_ (repayStep_bal_nonneg cfg n s i)
  · rw [repayEntry_beginningBalance, repayReset_remainingBalance]
  · rw [repayEntry_remainingBalance_eq, repayStep_remainingBalance]
    rw [if_neg (not_lt.2 (repay_sub_principal_nonneg cfg (repayReset cfg n s i) i))]

theorem repayInit_traceInv (cfg : Config) (b0 : ℚ) (s : SimState)
    (h : TraceInv b0 s) : TraceInv b0 (repayInit cfg s) := by
  obtain ⟨h1, h2, h3, h4⟩ := h
  exact ⟨h1, h2, h3, h4⟩

theorem drawStateAt_traceInv (cfg : Config) (k : ℕ) :
    TraceInv (initState cfg).remainingBalance (drawStateAt cfg k) := by
  induction k with
  | zero => exact initState_traceInv cfg
  | succ k ih => rw [drawStateAt_succ]; exact drawStep_traceInv cfg _ _ _ ih

theorem runRepay_traceInv (cfg : Config) :
    TraceInv (initState cfg).remainingBalance (runRepay cfg (runDraw cfg)) := by
  unfold runRepay
  split
  · have h0 := repayInit_traceInv cfg _ _ (drawStateAt_traceInv cfg (drawPeriods cfg))
    generalize hk : termPeriods cfg = k
    clear hk
    induction k with
    | zero => exact h0
    | succ k ih => rw [repayStateAt_succ]; exact repayStep_traceInv cfg _ _ _ _ ih
  · exact drawStateAt_traceInv cfg (drawPeriods cfg)

/-- C10: the schedule is a connected trace.  The first entry's beginning
balance is the balance right after the initial draw, and every later
entry's beginning balance equals the immediately preceding entry's
recorded ending balance, across both phases. -/
theorem C10_connected_trace (cfg : Config) :
    List.Chain' (fun a b => b.beginningBalance = a.remainingBalance)
        (calculateAmortization cfg).schedule ∧
      ∀ e, (calculateAmortization cfg).schedule.head? = some e →
        e.beginningBalance = (initState cfg).remainingBalance := by
  by_cases hg : cfg.annualRate < 0 ∨ cfg.termInYears ≤ 0
  · have hsched : (calculateAmortization cfg).schedule = [] := by
      unfold calculateAmortization
      rw [if_pos hg]
      rfl
    rw [hsched]
    exact ⟨List.chain'_nil, fun e he => by cases he⟩
  · have hsched : (calculateAmortization cfg).schedule = (runRepay cfg (runDraw cfg)).schedule := by
      unfold calculateAmortization
      rw [if_neg hg]
    rw [hsched]
    have h := runRepay_traceInv cfg
    exact ⟨h.1, h.2.1⟩

/-! ### Per-entry characterization of the draw phase -/

theorem getElem?_concat_of_length {α : Type} (l : List α) (a : α) (k : ℕ)
    (h : l.length = k) : (l ++ [a])[k]? = some a := by
  subst h
  exact List.getElem?_concat_length l a

theorem drawStateAt_getElem? (cfg : Config) (k j : ℕ) (h : j < k) :
    ((drawStateAt cfg k).schedule)[j]? =
      some (drawEntry cfg (drawStateAt cfg j) (j + 1)) := by
  induction k with
  | zero => cases h
  | succ k ih =>
    rw [drawStateAt_succ, drawStep_schedule]
    rcases Nat.lt_succ_iff_lt_or_eq.1 h with h1 | rfl
    · rw [List.getElem?_append, if_pos (by rw [drawStateAt_schedule_length]; exact h1)]
      exact ih h1
    · exact getElem?_concat_of_length _ _ _ (drawStateAt_schedule_length cfg j)

theorem repayStateAt_schedule_prefix (cfg : Config) (s0 : SimState) (k : ℕ) :
    ∃ t, (repayStateAt cfg s0 k).schedule = s0.schedule ++ t := by
  induction k with
  | zero => exact ⟨[], by rw [repayStateAt_zero, repayInit_schedule, List.append_nil]⟩
  | succ k ih =>
    obtain ⟨t, ht⟩ := ih
    refine ⟨t ++ [repayEntry cfg (repayReset cfg (termPeriods cfg)
      (repayStateAt cfg s0 k) (k + 1)) (k + 1)], ?_⟩
    rw [repayStateAt_succ, repayStep_schedule, ht, List.append_assoc]

/-- For a guard-passing configuration, the `k`-th schedule row of the
final result (`k < drawPeriods`) is the row generated by draw-phase
period `k + 1` from the state reached after `k` periods. -/
theorem calc_getElem?_draw (cfg : Config)
    (h1 : 0 ≤ cfg.annualRate) (h2 : 0 < cfg.termInYears)
    (k : ℕ) (hk : k < drawPeriods cfg) :
    ((calculateAmortization cfg).schedule)[k]? =
      some (drawEntry cfg (drawStateAt cfg k) (k + 1)) := by
  rw [calc_schedule_eq cfg h1 h2]
  unfold runRepay
  split
  · obtain ⟨t, ht⟩ := repayStateAt_schedule_prefix cfg (runDraw cfg) (termPeriods cfg)
    rw [ht, List.getElem?_append, if_pos (by rw [runDraw_schedule_length]; exact hk)]
    exact drawStateAt_getElem? cfg (drawPeriods cfg) k hk
  · exact drawStateAt_getElem? cfg (drawPeriods cfg) k hk

/-! ### C5: the draw clamp -/

theorem drawEntry_drawAmount (cfg : Config) (s : SimState) (i : ℕ) :
    (drawEntry cfg s i).drawAmount = drawAt cfg s.remainingBalance i := rfl

theorem drawAt_pos_bounds (cfg : Config) (bal : ℚ) (i : ℕ)
    (h : 0 < drawAt cfg bal i) :
    drawAt cfg bal i ≤ cfg.drawSchedule.getD (monthIndex cfg i).toNat 0 ∧
      drawAt cfg bal i ≤ cfg.borrowLimit - bal := by
  revert h
  unfold drawAt
  split
  · intro h
    have hm : 0 < min (cfg.drawSchedule.getD (monthIndex cfg i).toNat 0) (cfg.borrowLimit - bal) := by
      by_contra hc
      rw [max_eq_left (le_of_not_lt hc)] at h
      exact lt_irrefl 0 h
    rw [max_eq_right (le_of_lt hm)]
    exact ⟨min_le_left _ _, min_le_right _ _⟩
  · intro h
    exact absurd h (lt_irrefl 0)

theorem drawAt_zero_of_not_first (cfg : Config) (bal : ℚ) (i : ℕ)
    (h : ¬(firstOfMonth cfg i ∧ monthIndex cfg i < (cfg.drawSchedule.length : ℤ))) :
    drawAt cfg bal i = 0 := by
  unfold drawAt
  rw [if_neg h]

/-- C5 (amended): each draw-phase row's draw amount is exactly the clamp
`max(0, min(requested, borrowLimit - balance))` on first-of-month periods
with an in-range month index and 0 otherwise; it is never negative, and a
*positive* draw exceeds neither the requested amount nor the available
headroom.  (As frozen, the claim also asserted the bounds for zero draws,
which fails when the requested amount or the headroom is negative.) -/
theorem C5_draw_clamp (cfg : Config)
    (h1 : 0 ≤ cfg.annualRate) (h2 : 0 < cfg.termInYears)
    (k : ℕ) (hk : k < drawPeriods cfg) :
    ((calculateAmortization cfg).schedule)[k]? =
        some (drawEntry cfg (drawStateAt cfg k) (k + 1)) ∧
      (drawEntry cfg (drawStateAt cfg k) (k + 1)).drawAmount =
        (if firstOfMonth cfg (k + 1) ∧
            monthIndex cfg (k + 1) < (cfg.drawSchedule.length : ℤ) then
          max 0 (min (cfg.drawSchedule.getD (monthIndex cfg (k + 1)).toNat 0)
            (cfg.borrowLimit - (drawStateAt cfg k).remainingBalance))
        else 0) ∧
      0 ≤ (drawEntry cfg (drawStateAt cfg k) (k + 1)).drawAmount ∧
      (0 < (drawEntry cfg (drawStateAt cfg k) (k + 1)).drawAmount →
        (drawEntry cfg (drawStateAt cfg k) (k + 1)).drawAmount ≤
            cfg.drawSchedule.getD (monthIndex cfg (k + 1)).toNat 0 ∧
          (drawEntry cfg (drawStateAt cfg k) (k + 1)).drawAmount ≤
            cfg.borrowLimit - (drawStateAt cfg k).remainingBalance) ∧
      (¬(firstOfMonth cfg (k + 1) ∧
          monthIndex cfg (k + 1) < (cfg.drawSchedule.length : ℤ)) →
        (drawEntry cfg (drawStateAt cfg k) (k + 1)).drawAmount = 0) := by
  refine ⟨calc_getElem?_draw cfg h1 h2 k hk, rfl, ?_, ?_, ?_⟩
  · rw [drawEntry_drawAmount]
    exact drawAt_nonneg cfg _ _
  · rw [drawEntry_drawAmount]
    exact drawAt_pos_bounds cfg _ _
  · rw [drawEntry_drawAmount]
    exact drawAt_zero_of_not_first cfg _ _

theorem C5_draw_clamp_witness :
    0 ≤ cfgDemo.annualRate ∧ 0 < cfgDemo.termInYears ∧ 0 < drawPeriods cfgDemo ∧
      (drawEntry cfgDemo (drawStateAt cfgDemo 0) 1).drawAmount =
        (if firstOfMonth cfgDemo 1 ∧
            monthIndex cfgDemo 1 < (cfgDemo.drawSchedule.length : ℤ) then
          max 0 (min (cfgDemo.drawSchedule.getD (monthIndex cfgDemo 1).toNat 0)
            (cfgDemo.borrowLimit - (drawStateAt cfgDemo 0).remainingBalance))
        else 0) :=
  ⟨by decide, by decide, by decide,
    (C5_draw_clamp cfgDemo (by decide) (by decide) 0 (by decide)).2.1⟩

/-- A configuration with a negative requested draw. -/
def cfgNegDraw : Config :=
  { drawSchedule := [-5], initialDrawAmount := 0, annualRate := 0, termInYears := 1
    originationFeePercent := 0, annualFee := 0, drawFee := 0, inactivityFee := 0
    monthlyMaintenanceFee := 0, borrowLimit := 100, repaymentCadence := .monthly
    paymentPolicy := .interestOnly, balancePaymentPercent := 0, principalFloorAmount := 0
    rateChanges := [], interestCalculationMethod := .endOfPeriod }

/-- C5 counterexample: with a requested draw of `-5` in month 1, period 1
is a first-of-month period with an in-range month index, yet the actual
draw (0) strictly exceeds the requested amount, refuting the frozen
claim's unconditional "never exceeds the requested amount". -/
theorem C5_draw_clamp_counterexample :
    (firstOfMonth cfgNegDraw 1 ∧
        monthIndex cfgNegDraw 1 < (cfgNegDraw.drawSchedule.length : ℤ)) ∧
      cfgNegDraw.drawSchedule.getD (monthIndex cfgNegDraw 1).toNat 0 = -5 ∧
      ((calculateAmortization cfgNegDraw).schedule.getD 0 default).drawAmount = 0 ∧
      ¬(((calculateAmortization cfgNegDraw).schedule.getD 0 default).drawAmount ≤
        cfgNegDraw.drawSchedule.getD (monthIndex cfgNegDraw 1).toNat 0) := by
  refine ⟨by decide, by decide, by decide, by decide⟩

/-! ### C6: the inactivity fee rule -/

theorem drawEntry_feesThisPeriod (cfg : Config) (s : SimState) (i : ℕ) :
    (drawEntry cfg s i).feesThisPeriod =
      periodFees cfg i + drawRelatedFees cfg (drawAt cfg s.remainingBalance i) i := rfl

/-- C6 (amended): on a draw-phase period with no draw, the inactivity fee
is charged exactly when the period is not "period 1 with a *nonzero*
`initialDrawAmount`"; a period with a positive draw is charged the
percentage origination fee plus the flat draw fee and never the
inactivity fee.  (As frozen, the claim said "positive initial draw", but
the code tests `initialDrawAmount === 0`, so a *negative*
`initialDrawAmount` also suppresses the period-1 inactivity fee.) -/
theorem C6_inactivity_fee (cfg : Config)
    (h1 : 0 ≤ cfg.annualRate) (h2 : 0 < cfg.termInYears)
    (k : ℕ) (hk : k < drawPeriods cfg) :
    ((calculateAmortization cfg).schedule)[k]? =
        some (drawEntry cfg (drawStateAt cfg k) (k + 1)) ∧
      ((drawEntry cfg (drawStateAt cfg k) (k + 1)).drawAmount = 0 →
        (drawEntry cfg (drawStateAt cfg k) (k + 1)).feesThisPeriod =
          periodFees cfg (k + 1) +
            (if 1 < k + 1 ∨ cfg.initialDrawAmount = 0 then cfg.inactivityFee else 0)) ∧
      ((drawEntry cfg (drawStateAt cfg k) (k + 1)).drawAmount ≠ 0 →
        (drawEntry cfg (drawStateAt cfg k) (k + 1)).feesThisPeriod =
          periodFees cfg (k + 1) +
            ((drawEntry cfg (drawStateAt cfg k) (k + 1)).drawAmount *
                (cfg.originationFeePercent / 100) + cfg.drawFee)) := by
  refine ⟨calc_getElem?_draw cfg h1 h2 k hk, ?_, ?_⟩
  · intro h0
    rw [drawEntry_feesThisPeriod]
    rw [drawEntry_drawAmount] at h0
    rw [h0]
    unfold drawRelatedFees
    rw [if_neg (lt_irrefl 0)]
  · intro h0
    rw [drawEntry_drawAmount] at h0
    have hpos : 0 < drawAt cfg (drawStateAt cfg k).remainingBalance (k + 1) :=
      lt_of_le_of_ne (drawAt_nonneg cfg _ _) (Ne.symm h0)
    rw [drawEntry_feesThisPeriod, drawEntry_drawAmount]
    unfold drawRelatedFees
    rw [if_pos hpos]

theorem C6_inactivity_fee_witness :
    0 ≤ cfgDemo.annualRate ∧ 0 < cfgDemo.termInYears ∧ 1 < drawPeriods cfgDemo ∧
      (drawEntry cfgDemo (drawStateAt cfgDemo 1) 2).drawAmount = 0 ∧
      (drawEntry cfgDemo (drawStateAt cfgDemo 1) 2).feesThisPeriod =
        periodFees cfgDemo 2 +
          (if 1 < 2 ∨ cfgDemo.initialDrawAmount = 0 then cfgDemo.inactivityFee else 0) :=
  ⟨by decide, by decide, by decide, by decide,
    (C6_inactivity_fee cfgDemo (by decide) (by decide) 1 (by decide)).2.1 (by decide)⟩

/-- A configuration with a negative `initialDrawAmount` and a positive
inactivity fee. -/
def cfgNegInit : Config :=
  { drawSchedule := [], initialDrawAmount := -5, annualRate := 0, termInYears := 1
    originationFeePercent := 0, annualFee := 0, drawFee := 0, inactivityFee := 10
    monthlyMaintenanceFee := 0, borrowLimit := 100, repaymentCadence := .monthly
    paymentPolicy := .interestOnly, balancePaymentPercent := 0, principalFloorAmount := 0
    rateChanges := [], interestCalculationMethod := .endOfPeriod }

/-- C6 counterexample: `initialDrawAmount = -5` is not a *positive*
initial draw, and period 1 has no draw, so the frozen claim requires the
period-1 fees to include the (10) inactivity fee; the code charges no fee
at all in that period. -/
theorem C6_inactivity_fee_counterexample :
    ¬(0 < cfgNegInit.initialDrawAmount) ∧
      ((calculateAmortization cfgNegInit).schedule.getD 0 default).drawAmount = 0 ∧
      cfgNegInit.inactivityFee = 10 ∧
      ((calculateAmortization cfgNegInit).schedule.getD 0 default).feesThisPeriod = 0 := by
  refine ⟨by decide, by decide, by decide, by decide⟩

/-! ### C8: the repayment clamp records the unclamped payment -/

/-- C8: in any repayment-phase period whose level payment minus interest
exceeds the current balance, the recorded principal is clamped to the
balance, the recorded payment stays the unclamped level payment, and the
recorded ending balance is 0. -/
theorem C8_repay_clamp (cfg : Config) (s : SimState) (i : ℕ)
    (h : s.remainingBalance < s.payment - repayInterest cfg s) :
    (repayEntry cfg s i).principal = s.remainingBalance ∧
      (repayEntry cfg s i).payment = s.payment ∧
      (repayEntry cfg s i).remainingBalance = 0 := by
  have hp : (repayEntry cfg s i).principal = s.remainingBalance := by
    rw [repayEntry_principal, if_pos (by linarith)]
  refine ⟨hp, rfl, ?_⟩
  rw [repayEntry_remainingBalance_eq, hp, sub_self, if_neg (lt_irrefl 0)]

/-- A repayment-phase state in which the level payment overshoots the
balance. -/
def stateClamp : SimState :=
  { remainingBalance := 50, totalInterest := 0, totalDraws := 0, totalFees := 0
    peakBalance := 50, currentAnnualRate := 0, repaymentPeriodicRate := 0
    payment := 100, schedule := [] }

theorem C8_repay_clamp_witness :
    stateClamp.remainingBalance < stateClamp.payment - repayInterest cfgDemo stateClamp ∧
      (repayEntry cfgDemo stateClamp 1).principal = stateClamp.remainingBalance ∧
      (repayEntry cfgDemo stateClamp 1).payment = stateClamp.payment ∧
      (repayEntry cfgDemo stateClamp 1).remainingBalance = 0 :=
  ⟨by decide, C8_repay_clamp cfgDemo stateClamp 1 (by decide)⟩

/-! ### C9: the initial draw -/

/-- C9 (amended): only a *positive* `initialDrawAmount` is processed
before period 1: it is clamped to `max(0, min(initialDrawAmount,
borrowLimit))`, added to the balance and the running total of draws, the
percentage origination fee plus the flat draw fee is added to the running
fee total (no schedule row exists yet, so to no period's
`feesThisPeriod`), and `peakBalance` starts at the resulting balance.
When `initialDrawAmount ≤ 0` nothing is drawn and no fee is charged.  (As
frozen, the claim asserted the clamp-and-fee behavior for every
configuration, but the code skips the whole block, including the flat
draw fee, unless `initialDrawAmount > 0`.) -/
theorem C9_initial_draw (cfg : Config) :
    (0 < cfg.initialDrawAmount →
        (initState cfg).remainingBalance =
            max 0 (min cfg.initialDrawAmount cfg.borrowLimit) ∧
          (initState cfg).totalDraws =
            max 0 (min cfg.initialDrawAmount cfg.borrowLimit) ∧
          (initState cfg).totalFees =
            max 0 (min cfg.initialDrawAmount cfg.borrowLimit) *
                (cfg.originationFeePercent / 100) + cfg.drawFee ∧
          (initState cfg).peakBalance = (initState cfg).remainingBalance ∧
          (initState cfg).schedule = []) ∧
      (cfg.initialDrawAmount ≤ 0 →
        (initState cfg).remainingBalance = 0 ∧
          (initState cfg).totalDraws = 0 ∧
          (initState cfg).totalFees = 0 ∧
          (initState cfg).peakBalance = 0 ∧
          (initState cfg).schedule = []) := by
  constructor
  · intro h
    unfold initState
    rw [if_pos h]
    exact ⟨rfl, rfl, rfl, rfl, rfl⟩
  · intro h
    unfold initState
    rw [if_neg (not_lt.2 h)]
    exact ⟨rfl, rfl, rfl, rfl, rfl⟩

/-- A configuration with `initialDrawAmount = 0` and a positive flat draw
fee. -/
def cfgZeroInitFee : Config :=
  { drawSchedule := [], initialDrawAmount := 0, annualRate := 0, termInYears := 1
    originationFeePercent := 0, annualFee := 0, drawFee := 10, inactivityFee := 0
    monthlyMaintenanceFee := 0, borrowLimit := 100, repaymentCadence := .monthly
    paymentPolicy := .interestOnly, balancePaymentPercent := 0, principalFloorAmount := 0
    rateChanges := [], interestCalculationMethod := .endOfPeriod }

/-- C9 counterexample: with `initialDrawAmount = 0` and `drawFee = 10`,
the frozen claim's unconditional reading charges the flat draw fee (total
10) before period 1, but the engine charges nothing. -/
theorem C9_initial_draw_counterexample :
    (initState cfgZeroInitFee).totalFees = 0 ∧
      max 0 (min cfgZeroInitFee.initialDrawAmount cfgZeroInitFee.borrowLimit) *
            (cfgZeroInitFee.originationFeePercent / 100) + cfgZeroInitFee.drawFee = 10 ∧
      (initState cfgZeroInitFee).totalFees ≠
        max 0 (min cfgZeroInitFee.initialDrawAmount cfgZeroInitFee.borrowLimit) *
            (cfgZeroInitFee.originationFeePercent / 100) + cfgZeroInitFee.drawFee := by
  refine ⟨by decide, by decide, by decide⟩

theorem C9_initial_draw_witness :
    0 < cfgDemo.initialDrawAmount ∨
      (cfgDemo.initialDrawAmount ≤ 0 ∧ (initState cfgDemo).totalFees = 0 ∧
        (initState cfgDemo).peakBalance = 0) :=
  Or.inr ⟨by decide, ((C9_initial_draw cfgDemo).2 (by decide)).2.2.1,
    ((C9_initial_draw cfgDemo).2 (by decide)).2.2.2.1⟩

/-! ### Annuity mathematics

`pvFactor m r` is the present value of `m` level payments of 1 at
periodic rate `r` (the reciprocal of the annuity factor), defined by the
recursion `pvFactor 0 = 0`, `pvFactor (m+1) = (pvFactor m + 1)/(1+r)`. -/

def pvFactor : ℕ → ℚ → ℚ
  | 0, _ => 0
  | m + 1, r => (pvFactor m r + 1) / (1 + r)

theorem pvFactor_nonneg (r : ℚ) (hr : 0 ≤ r) (m : ℕ) : 0 ≤ pvFactor m r := by
  induction m with
  | zero => exact le_refl 0
  | succ m ih =>
    show 0 ≤ (pvFactor m r + 1) / (1 + r)
    positivity

theorem pvFactor_succ_mul (r : ℚ) (hr : 0 < r) (m : ℕ) :
    pvFactor (m + 1) r * (1 + r) = pvFactor m r + 1 := by
  show (pvFactor m r + 1) / (1 + r) * (1 + r) = pvFactor m r + 1
  field_simp

theorem pvFactor_lt (r : ℚ) (hr : 0 < r) (m : ℕ) : pvFactor (m + 1) r < (m : ℚ) + 1 := by
  have hq : (0 : ℚ) < 1 + r := by linarith
  induction m with
  | zero =>
    show (pvFactor 0 r + 1) / (1 + r) < _
    have e0 : pvFactor 0 r = 0 := rfl
    rw [e0, div_lt_iff₀ hq]
    push_cast
    nlinarith
  | succ m ih =>
    have h0 : 0 ≤ pvFactor (m + 1) r := pvFactor_nonneg r (le_of_lt hr) (m + 1)
    show (pvFactor (m + 1) r + 1) / (1 + r) < _
    rw [div_lt_iff₀ hq]
    push_cast
    push_cast at ih
    nlinarith

theorem pvFactor_closed (r : ℚ) (hr : 0 < r) (m : ℕ) :
    pvFactor m r = ((1 + r) ^ m - 1) / (r * (1 + r) ^ m) := by
  induction m with
  | zero => simp [pvFactor]
  | succ m ih =>
    have hq : (0 : ℚ) < 1 + r := by linarith
    have hqm : (0 : ℚ) < (1 + r) ^ m := pow_pos hq m
    show (pvFactor m r + 1) / (1 + r) = ((1 + r) ^ (m + 1) - 1) / (r * (1 + r) ^ (m + 1))
    rw [ih, pow_succ]
    rw [div_add' _ _ _ (by positivity), div_div]
    rw [div_eq_div_iff (by positivity) (by positivity)]
    ring

theorem pvFactor_pos (r : ℚ) (hr : 0 < r) (m : ℕ) (hm : 1 ≤ m) : 0 < pvFactor m r := by
  obtain ⟨m, rfl⟩ := Nat.exists_eq_add_of_le hm
  show 0 < pvFactor (1 + m) r
  rw [Nat.add_comm 1 m]
  show 0 < (pvFactor m r + 1) / (1 + r)
  have := pvFactor_nonneg r (le_of_lt hr) m
  positivity

theorem pvFactor_mul_rate (r : ℚ) (hr : 0 < r) (m : ℕ) :
    pvFactor m r * r = 1 - 1 / (1 + r) ^ m := by
  have hq : (0 : ℚ) < 1 + r := by linarith
  have hqm : (0 : ℚ) < (1 + r) ^ m := pow_pos hq m
  rw [pvFactor_closed r hr m]
  field_simp
  ring

theorem pvFactor_mul_rate_le_one (r : ℚ) (hr : 0 < r) (m : ℕ) :
    pvFactor m r * r ≤ 1 := by
  rw [pvFactor_mul_rate r hr m]
  have hq : (0 : ℚ) < 1 + r := by linarith
  have h1 : (1 : ℚ) ≤ (1 + r) ^ m := one_le_pow₀ (by linarith)
  have : 0 < (1 + r) ^ m := pow_pos hq m
  have h2 : 0 ≤ 1 / (1 + r) ^ m := by positivity
  linarith

/-- Strict antitonicity of the present-value factor in the rate. -/
theorem pvFactor_anti (r1 r2 : ℚ) (h1 : 0 < r1) (h12 : r1 < r2) :
    ∀ m : ℕ, pvFactor m r2 ≤ pvFactor m r1 ∧
      (1 ≤ m → pvFactor m r2 < pvFactor m r1) := by
  intro m
  induction m with
  | zero => exact ⟨le_refl 0, fun h => absurd h (by decide)⟩
  | succ m ih =>
    have hq1 : (0 : ℚ) < 1 + r1 := by linarith
    have hq2 : (0 : ℚ) < 1 + r2 := by linarith
    have hnum1 : (0 : ℚ) < pvFactor m r1 + 1 := by
      have := pvFactor_nonneg r1 (le_of_lt h1) m
      linarith
    have hstrict : (pvFactor m r2 + 1) / (1 + r2) < (pvFactor m r1 + 1) / (1 + r1) := by
      have hle : (pvFactor m r2 + 1) / (1 + r2) ≤ (pvFactor m r1 + 1) / (1 + r2) :=
        (div_le_div_right hq2).2 (by linarith [ih.1])
      have hlt : (pvFactor m r1 + 1) / (1 + r2) < (pvFactor m r1 + 1) / (1 + r1) :=
        div_lt_div_of_pos_left hnum1 hq1 (by linarith)
      exact lt_of_le_of_lt hle hlt
    exact ⟨le_of_lt hstrict, fun _ => hstrict⟩

theorem one_lt_qpow (r : ℚ) (hr : 0 < r) (m : ℕ) (hm : 1 ≤ m) : 1 < (1 + r) ^ m :=
  one_lt_pow (by linarith) (by omega)

theorem qpow_pos (r : ℚ) (hr : 0 < r) (m : ℕ) : (0 : ℚ) < (1 + r) ^ m :=
  pow_pos (by linarith) m

theorem annuity_nonneg (P r : ℚ) (hP : 0 ≤ P) (hr : 0 < r) (m : ℕ) (hm : 1 ≤ m) :
    0 ≤ annuity P r m := by
  unfold annuity
  have h1 : (0 : ℚ) < (1 + r) ^ m - 1 := by linarith [one_lt_qpow r hr m hm]
  have h2 : (0 : ℚ) < (1 + r) ^ m := qpow_pos r hr m
  positivity

/-- The level payment times the present-value factor recovers the
principal. -/
theorem annuity_pv (P r : ℚ) (hr : 0 < r) (m : ℕ) (hm : 1 ≤ m) :
    annuity P r m * pvFactor m r = P := by
  unfold annuity
  rw [pvFactor_closed r hr m]
  have h1 : (1 + r) ^ m - 1 ≠ 0 := ne_of_gt (by linarith [one_lt_qpow r hr m hm])
  have h2 : (1 + r) ^ m ≠ 0 := ne_of_gt (qpow_pos r hr m)
  have h3 : r ≠ 0 := ne_of_gt hr
  field_simp
  ring

theorem annuity_eq_div (P r : ℚ) (hr : 0 < r) (m : ℕ) (hm : 1 ≤ m) :
    annuity P r m = P / pvFactor m r := by
  have hg : pvFactor m r ≠ 0 := ne_of_gt (pvFactor_pos r hr m hm)
  rw [eq_div_iff hg]
  exact annuity_pv P r hr m hm

/-- Strict monotonicity of the level payment in the rate (for a positive
principal). -/
theorem annuity_lt_annuity (P : ℚ) (hP : 0 < P) (m : ℕ) (hm : 1 ≤ m)
    (r1 r2 : ℚ) (h1 : 0 < r1) (h12 : r1 < r2) :
    annuity P r1 m < annuity P r2 m := by
  have h2 : 0 < r2 := lt_trans h1 h12
  rw [annuity_eq_div P r1 h1 m hm, annuity_eq_div P r2 h2 m hm]
  exact div_lt_div_of_pos_left hP (pvFactor_pos r2 h2 m hm) ((pvFactor_anti r1 r2 h1 h12 m).2 hm)

/-- The level payment strictly exceeds the straight-line payment (for a
positive rate and principal). -/
theorem straight_lt_annuity (P r : ℚ) (hP : 0 < P) (hr : 0 < r) (m : ℕ) (hm : 1 ≤ m) :
    P / (m : ℚ) < annuity P r m := by
  obtain ⟨k, rfl⟩ : ∃ k, m = k + 1 := ⟨m - 1, by omega⟩
  rw [annuity_eq_div P r hr (k + 1) hm]
  have hglt : pvFactor (k + 1) r < ((k + 1 : ℕ) : ℚ) := by
    push_cast
    exact pvFactor_lt r hr k
  exact div_lt_div_of_pos_left hP (pvFactor_pos r hr (k + 1) hm) hglt

/-- A single-period annuity pays the whole balance plus one period of
interest. -/
theorem annuity_one (P r : ℚ) (hr : 0 < r) : annuity P r 1 = P * (1 + r) := by
  unfold annuity
  have h3 : r ≠ 0 := ne_of_gt hr
  rw [pow_one]
  rw [show (1 + r - 1 : ℚ) = r by ring]
  field_simp
  ring

/-- The level payment never exceeds balance plus one period of interest. -/
theorem annuity_le (P r : ℚ) (hP : 0 ≤ P) (hr : 0 < r) (m : ℕ) (hm : 1 ≤ m) :
    annuity P r m ≤ P * (1 + r) := by
  obtain ⟨k, rfl⟩ : ∃ k, m = k + 1 := ⟨m - 1, by omega⟩
  rw [annuity_eq_div P r hr (k + 1) hm]
  have hg : 0 < pvFactor (k + 1) r := pvFactor_pos r hr (k + 1) hm
  rw [div_le_iff₀ hg]
  have hrec : pvFactor (k + 1) r * (1 + r) = pvFactor k r + 1 := pvFactor_succ_mul r hr k
  have hgk : 0 ≤ pvFactor k r := pvFactor_nonneg r (le_of_lt hr) k
  calc P = P * 1 := by ring
    _ ≤ P * (pvFactor k r + 1) := by nlinarith
    _ = P * (pvFactor (k + 1) r * (1 + r)) := by rw [hrec]
    _ = P * (1 + r) * pvFactor (k + 1) r := by ring

/-- Re-amortizing the remainder of an annuity at the same rate reproduces
the same level payment. -/
theorem annuity_recurrence (P r : ℚ) (hr : 0 < r) (k : ℕ) (hk : 1 ≤ k) :
    annuity (P * (1 + r) - annuity P r (k + 1)) r k = annuity P r (k + 1) := by
  have hg1 : 0 < pvFactor (k + 1) r := pvFactor_pos r hr (k + 1) (by omega)
  have hgk : 0 < pvFactor k r := pvFactor_pos r hr k hk
  rw [annuity_eq_div P r hr (k + 1) (by omega)]
  rw [annuity_eq_div _ r hr k hk]
  rw [div_eq_div_iff (ne_of_gt hgk) (ne_of_gt hg1)]
  rw [sub_mul, div_mul_cancel₀ P (ne_of_gt hg1)]
  have hrec : pvFactor (k + 1) r * (1 + r) = pvFactor k r + 1 := pvFactor_succ_mul r hr k
  have key : P * (1 + r) * pvFactor (k + 1) r = P * (pvFactor k r + 1) := by
    rw [← hrec]
    ring
  linarith [key]

/-- The annuity-or-straight-line rule gives different payments for
different non-negative rates (positive balance, at least one period
left). -/
theorem reamortize_ne (bal : ℚ) (hb : 0 < bal) (m : ℕ) (hm : 1 ≤ m)
    (r1 r2 : ℚ) (h1 : 0 ≤ r1) (h2 : 0 ≤ r2) (hne : r1 ≠ r2) :
    reamortize bal r1 m ≠ reamortize bal r2 m := by
  unfold reamortize
  rcases lt_or_eq_of_le h1 with hp1 | hz1
  · rcases lt_or_eq_of_le h2 with hp2 | hz2
    · rw [if_pos hp1, if_pos hp2]
      rcases lt_or_gt_of_ne hne with hlt | hgt
      · exact ne_of_lt (annuity_lt_annuity bal hb m hm r1 r2 hp1 hlt)
      · exact ne_of_gt (annuity_lt_annuity bal hb m hm r2 r1 hp2 hgt)
    · rw [if_pos hp1, if_neg (by rw [← hz2]; exact lt_irrefl 0)]
      exact ne_of_gt (straight_lt_annuity bal r1 hb hp1 m hm)
  · rcases lt_or_eq_of_le h2 with hp2 | hz2
    · rw [if_neg (by rw [← hz1]; exact lt_irrefl 0), if_pos hp2]
      exact ne_of_lt (straight_lt_annuity bal r2 hb hp2 m hm)
    · exact absurd (hz1.symm.trans hz2) hne

/-! ### Effective per-period interest rate of the repayment phase -/

theorem repayStep_payment (cfg : Config) (n : ℕ) (s : SimState) (i : ℕ) :
    (repayStep cfg n s i).payment = (repayReset cfg n s i).payment := rfl

theorem repayStep_currentAnnualRate (cfg : Config) (n : ℕ) (s : SimState) (i : ℕ) :
    (repayStep cfg n s i).currentAnnualRate = (repayReset cfg n s i).currentAnnualRate := rfl

theorem repayStep_repaymentPeriodicRate (cfg : Config) (n : ℕ) (s : SimState) (i : ℕ) :
    (repayStep cfg n s i).repaymentPeriodicRate =
      (repayReset cfg n s i).repaymentPeriodicRate := rfl

/-- `repaymentPeriodicRate` tracks `currentAnnualRate / 100 /
periodsPerYear` throughout the repayment phase. -/
def RateCon (cfg : Config) (s : SimState) : Prop :=
  s.repaymentPeriodicRate = s.currentAnnualRate / 100 / (periodsPerYear cfg : ℚ)

/-- The factor by which the balance is multiplied to produce one period's
interest in the repayment phase. -/
def repayRateEff (cfg : Config) (s : SimState) : ℚ :=
  match cfg.interestCalculationMethod with
  | .adb => s.currentAnnualRate / 100 / (1461 / 4) * daysInPeriod cfg
  | .endOfPeriod => s.repaymentPeriodicRate

theorem repayInterest_eq (cfg : Config) (s : SimState) :
    repayInterest cfg s = s.remainingBalance * repayRateEff cfg s := by
  unfold repayInterest repayRateEff
  cases cfg.interestCalculationMethod
  · rfl
  · rw [mul_assoc]

theorem ppy_cast_pos (cfg : Config) : (0 : ℚ) < (periodsPerYear cfg : ℚ) := by
  exact_mod_cast periodsPerYear_pos cfg

theorem rate_pos_iff (cfg : Config) (s : SimState) (hRC : RateCon cfg s) :
    0 < s.repaymentPeriodicRate ↔ 0 < s.currentAnnualRate := by
  rw [hRC, div_div, lt_div_iff₀ (mul_pos (by norm_num) (ppy_cast_pos cfg)), zero_mul]

theorem rate_nonneg_iff (cfg : Config) (s : SimState) (hRC : RateCon cfg s) :
    0 ≤ s.repaymentPeriodicRate ↔ 0 ≤ s.currentAnnualRate := by
  rw [hRC, div_div, le_div_iff₀ (mul_pos (by norm_num) (ppy_cast_pos cfg)), zero_mul]

/-- For a non-negative annual rate, the effective per-period factor never
exceeds the stored periodic rate (equality except for weekly ADB, where 7
days fall slightly short of a 52nd of 365.25 days). -/
theorem effRate_le_rate (cfg : Config) (s : SimState) (hRC : RateCon cfg s)
    (ha : 0 ≤ s.currentAnnualRate) :
    repayRateEff cfg s ≤ s.repaymentPeriodicRate := by
  unfold repayRateEff
  cases cfg.interestCalculationMethod
  · exact le_refl _
  · rw [hRC]
    unfold daysInPeriod periodsPerYear
    cases cfg.repaymentCadence
    · have : s.currentAnnualRate / 100 / (1461 / 4) * (1461 / 4 / 12) =
          s.currentAnnualRate / 100 / ((12 : ℕ) : ℚ) := by
        push_cast
        ring
      rw [this]
    · have h1 : s.currentAnnualRate / 100 / (1461 / 4) * 7 =
          s.currentAnnualRate * (7 / 36525) := by ring
      have h2 : s.currentAnnualRate / 100 / ((52 : ℕ) : ℚ) =
          s.currentAnnualRate * (1 / 5200) := by
        push_cast
        ring
      rw [h1, h2]
      exact mul_le_mul_of_nonneg_left (by norm_num) ha

/-- For a non-positive annual rate the effective factor is non-positive. -/
theorem effRate_nonpos (cfg : Config) (s : SimState) (hRC : RateCon cfg s)
    (ha : s.currentAnnualRate ≤ 0) : repayRateEff cfg s ≤ 0 := by
  unfold repayRateEff
  cases cfg.interestCalculationMethod
  · rw [hRC]
    exact div_nonpos_iff.2 (Or.inr ⟨div_nonpos_iff.2 (Or.inr ⟨ha, by norm_num⟩), by positivity⟩)
  · have hd : 0 ≤ daysInPeriod cfg := by
      unfold daysInPeriod
      cases cfg.repaymentCadence <;> norm_num
    have h1 : s.currentAnnualRate / 100 / (1461 / 4) ≤ 0 :=
      div_nonpos_iff.2 (Or.inr ⟨div_nonpos_iff.2 (Or.inr ⟨ha, by norm_num⟩), by norm_num⟩)
    exact mul_nonpos_of_nonpos_of_nonneg h1 hd

/-- When interest is computed end-of-period, or by ADB on a monthly
cadence, the effective factor is exactly the periodic rate. -/
theorem effRate_eq_rate (cfg : Config) (s : SimState) (hRC : RateCon cfg s)
    (hx : cfg.interestCalculationMethod = .endOfPeriod ∨ cfg.repaymentCadence = .monthly) :
    repayRateEff cfg s = s.repaymentPeriodicRate := by
  unfold repayRateEff
  cases hmeth : cfg.interestCalculationMethod
  · rfl
  · rcases hx with hx | hx
    · rw [hmeth] at hx
      cases hx
    · rw [hRC]
      unfold daysInPeriod periodsPerYear
      rw [hx]
      show s.currentAnnualRate / 100 / (1461 / 4) * (1461 / 4 / 12) =
        s.currentAnnualRate / 100 / ((12 : ℕ) : ℚ)
      push_cast
      ring

/-! ### The payoff invariant of the repayment phase -/

/-- `PayInv cfg m s`: with `m` repayment periods left, the balance does
not exceed the present value of `m` level payments (straight-line bound
when the periodic rate is not positive).  This is what forces the balance
to 0 at the end of the schedule. -/
def PayInv (cfg : Config) (m : ℕ) (s : SimState) : Prop :=
  0 ≤ s.remainingBalance ∧ 0 ≤ s.payment ∧ RateCon cfg s ∧
    (0 < s.repaymentPeriodicRate →
      s.remainingBalance ≤ s.payment * pvFactor m s.repaymentPeriodicRate) ∧
    (s.repaymentPeriodicRate ≤ 0 → s.remainingBalance ≤ s.payment * (m : ℚ))

theorem reamortize_nonneg (bal r : ℚ) (hb : 0 ≤ bal) (m : ℕ) (hm : 1 ≤ m) :
    0 ≤ reamortize bal r m := by
  unfold reamortize
  split
  · next hr => exact annuity_nonneg bal r hb hr m hm
  · have : (0 : ℚ) < (m : ℚ) := by exact_mod_cast hm
    positivity

/-- Re-amortizing over `m ≥ 1` periods establishes the payoff bound. -/
theorem reamortize_payInv (bal r : ℚ) (_hbal : 0 ≤ bal) (m : ℕ) (hm : 1 ≤ m) :
    (0 < r → bal ≤ reamortize bal r m * pvFactor m r) ∧
      (r ≤ 0 → bal ≤ reamortize bal r m * (m : ℚ)) := by
  constructor
  · intro hr
    unfold reamortize
    rw [if_pos hr, annuity_pv bal r hr m hm]
  · intro hr
    unfold reamortize
    rw [if_neg (not_lt.2 hr)]
    have hm0 : ((m : ℚ)) ≠ 0 := by
      have : (0 : ℚ) < (m : ℚ) := by exact_mod_cast hm
      exact ne_of_gt this
    rw [div_mul_cancel₀ bal hm0]

/-- The rate-change reset preserves the payoff invariant (with `m = n -
(i - 1)` periods left, `m ≥ 1`). -/
theorem repayReset_payInv (cfg : Config) (n : ℕ) (s : SimState) (i : ℕ) (m : ℕ)
    (hm : 1 ≤ m) (hpl : n - (i - 1) = m) (h : PayInv cfg m s) :
    PayInv cfg m (repayReset cfg n s i) := by
  obtain ⟨hb, hp, hRC, hbound1, hbound2⟩ := h
  unfold repayReset
  cases hfr : findRate cfg (drawPeriods cfg + i)
  · exact ⟨hb, hp, hRC, hbound1, hbound2⟩
  · next rc =>
    rw [hpl]
    dsimp only
    by_cases hcond : 0 < s.remainingBalance ∧ 0 < m
    · rw [if_pos hcond]
      refine ⟨hb, reamortize_nonneg _ _ hb m hm, rfl, ?_, ?_⟩
      · intro hr
        exact (reamortize_payInv s.remainingBalance _ hb m hm).1 hr
      · intro hr
        exact (reamortize_payInv s.remainingBalance _ hb m hm).2 hr
    · rw [if_neg hcond]
      have hb0 : s.remainingBalance = 0 := by
        rcases not_and_or.1 hcond with hc | hc
        · linarith [not_lt.1 hc]
        · omega
      refine ⟨hb, hp, rfl, ?_, ?_⟩
      · intro hr
        rw [hb0]
        have : 0 ≤ pvFactor m (rc.newTotalAPR / 100 / (periodsPerYear cfg : ℚ)) :=
          pvFactor_nonneg _ (le_of_lt hr) m
        positivity
      · intro hr
        rw [hb0]
        positivity

/-- One period's interest never exceeds the level payment under the
payoff invariant. -/
theorem interest_le_payment (cfg : Config) (t : SimState) (k : ℕ)
    (hb : 0 ≤ t.remainingBalance) (hp : 0 ≤ t.payment) (hRC : RateCon cfg t)
    (hbound1 : 0 < t.repaymentPeriodicRate →
      t.remainingBalance ≤ t.payment * pvFactor (k + 1) t.repaymentPeriodicRate) :
    repayInterest cfg t ≤ t.payment := by
  rw [repayInterest_eq]
  by_cases hr : 0 < t.repaymentPeriodicRate
  · have ha : 0 ≤ t.currentAnnualRate := le_of_lt ((rate_pos_iff cfg t hRC).1 hr)
    have hrho : repayRateEff cfg t ≤ t.repaymentPeriodicRate := effRate_le_rate cfg t hRC ha
    have h1 : t.remainingBalance * repayRateEff cfg t ≤
        t.remainingBalance * t.repaymentPeriodicRate := mul_le_mul_of_nonneg_left hrho hb
    have h2 : t.remainingBalance * t.repaymentPeriodicRate ≤
        t.payment * pvFactor (k + 1) t.repaymentPeriodicRate * t.repaymentPeriodicRate :=
      mul_le_mul_of_nonneg_right (hbound1 hr) (le_of_lt hr)
    have h3 : t.payment * pvFactor (k + 1) t.repaymentPeriodicRate * t.repaymentPeriodicRate ≤
        t.payment := by
      calc t.payment * pvFactor (k + 1) t.repaymentPeriodicRate * t.repaymentPeriodicRate
          = t.payment * (pvFactor (k + 1) t.repaymentPeriodicRate * t.repaymentPeriodicRate) := by
            ring
        _ ≤ t.payment * 1 :=
            mul_le_mul_of_nonneg_left
              (pvFactor_mul_rate_le_one t.repaymentPeriodicRate hr (k + 1)) hp
        _ = t.payment := by ring
    linarith
  · have ha : t.currentAnnualRate ≤ 0 := by
      by_contra hc
      exact hr ((rate_pos_iff cfg t hRC).2 (lt_of_not_le hc))
    have hrho : repayRateEff cfg t ≤ 0 := effRate_nonpos cfg t hRC ha
    have : t.remainingBalance * repayRateEff cfg t ≤ 0 :=
      mul_nonpos_of_nonneg_of_nonpos hb hrho
    linarith

/-- The payment application of one repayment period takes the payoff
invariant from `k + 1` periods left to `k`, and never increases the
balance. -/
theorem repayStep_payInv (cfg : Config) (n : ℕ) (s : SimState) (i : ℕ) (k : ℕ)
    (h : PayInv cfg (k + 1) (repayReset cfg n s i)) :
    PayInv cfg k (repayStep cfg n s i) ∧
      (repayStep cfg n s i).remainingBalance ≤
        (repayReset cfg n s i).remainingBalance := by
  obtain ⟨hb, hp, hRC, hbound1, hbound2⟩ := h
  have hint : repayInterest cfg (repayReset cfg n s i) ≤ (repayReset cfg n s i).payment :=
    interest_le_payment cfg _ k hb hp hRC hbound1
  have hprin : 0 ≤ (repayEntry cfg (repayReset cfg n s i) i).principal := by
    rw [repayEntry_principal]
    split
    · exact hb
    · linarith
  have hdec : (repayStep cfg n s i).remainingBalance ≤
      (repayReset cfg n s i).remainingBalance := by
    rw [repayStep_remainingBalance]
    linarith
  refine ⟨⟨repayStep_bal_nonneg cfg n s i, ?_, ?_, ?_, ?_⟩, hdec⟩
  · rw [repayStep_payment]
    exact hp
  · show (repayStep cfg n s i).repaymentPeriodicRate = _ / 100 / _
    rw [repayStep_repaymentPeriodicRate, repayStep_currentAnnualRate]
    exact hRC
  · -- positive-rate payoff bound with k periods left
    rw [repayStep_repaymentPeriodicRate, repayStep_payment]
    intro hr
    have hgk : 0 ≤ pvFactor k (repayReset cfg n s i).repaymentPeriodicRate :=
      pvFactor_nonneg _ (le_of_lt hr) k
    rw [repayStep_remainingBalance, repayEntry_principal]
    split
    · rw [sub_self]
      positivity
    · rw [repayInterest_eq]
      have ha : 0 ≤ (repayReset cfg n s i).currentAnnualRate :=
        le_of_lt ((rate_pos_iff cfg _ hRC).1 hr)
      have hrho : repayRateEff cfg (repayReset cfg n s i) ≤
          (repayReset cfg n s i).repaymentPeriodicRate := effRate_le_rate cfg _ hRC ha
      have h1 : (repayReset cfg n s i).remainingBalance * repayRateEff cfg (repayReset cfg n s i) ≤
          (repayReset cfg n s i).remainingBalance * (repayReset cfg n s i).repaymentPeriodicRate :=
        mul_le_mul_of_nonneg_left hrho hb
      have h2 : (repayReset cfg n s i).remainingBalance *
            (1 + (repayReset cfg n s i).repaymentPeriodicRate) ≤
          (repayReset cfg n s i).payment *
              pvFactor (k + 1) (repayReset cfg n s i).repaymentPeriodicRate *
            (1 + (repayReset cfg n s i).repaymentPeriodicRate) :=
        mul_le_mul_of_nonneg_right (hbound1 hr) (by linarith)
      have h4 : (repayReset cfg n s i).payment *
            pvFactor (k + 1) (repayReset cfg n s i).repaymentPeriodicRate *
            (1 + (repayReset cfg n s i).repaymentPeriodicRate) =
          (repayReset cfg n s i).payment *
            (pvFactor k (repayReset cfg n s i).repaymentPeriodicRate + 1) := by
        rw [mul_assoc, pvFactor_succ_mul _ hr k]
      nlinarith [h1, h2, h4]
  · -- non-positive-rate straight-line bound with k periods left
    rw [repayStep_repaymentPeriodicRate, repayStep_payment]
    intro hr
    rw [repayStep_remainingBalance, repayEntry_principal]
    split
    · rw [sub_self]
      positivity
    · rw [repayInterest_eq]
      have ha : (repayReset cfg n s i).currentAnnualRate ≤ 0 := by
        by_contra hc
        have := (rate_pos_iff cfg _ hRC).2 (lt_of_not_le hc)
        linarith
      have hrho : repayRateEff cfg (repayReset cfg n s i) ≤ 0 :=
        effRate_nonpos cfg _ hRC ha
      have h1 : (repayReset cfg n s i).remainingBalance *
            repayRateEff cfg (repayReset cfg n s i) ≤ 0 :=
        mul_nonpos_of_nonneg_of_nonpos hb hrho
      have h2 : (repayReset cfg n s i).remainingBalance ≤
          (repayReset cfg n s i).payment * ((k : ℚ) + 1) := by
        have := hbound2 hr
        push_cast at this ⊢
        linarith
      linarith

theorem repayInit_currentAnnualRate (cfg : Config) (s : SimState) :
    (repayInit cfg s).currentAnnualRate = s.currentAnnualRate := rfl

theorem repayInit_rate (cfg : Config) (s : SimState) :
    (repayInit cfg s).repaymentPeriodicRate =
      s.currentAnnualRate / 100 / (periodsPerYear cfg : ℚ) := rfl

theorem repayInit_payment (cfg : Config) (s : SimState) :
    (repayInit cfg s).payment =
      if 0 < cfg.termInYears * (periodsPerYear cfg : ℤ) ∧
          0 < s.currentAnnualRate / 100 / (periodsPerYear cfg : ℚ) then
        annuity s.remainingBalance (s.currentAnnualRate / 100 / (periodsPerYear cfg : ℚ))
          (termPeriods cfg)
      else if 0 < cfg.termInYears * (periodsPerYear cfg : ℤ) then
        s.remainingBalance / ((termPeriods cfg : ℕ) : ℚ)
      else 0 := rfl

theorem termPeriods_pos (cfg : Config) (h2 : 0 < cfg.termInYears) :
    1 ≤ termPeriods cfg := by
  have hppy := periodsPerYear_pos cfg
  have hnZ : 0 < cfg.termInYears * (periodsPerYear cfg : ℤ) := by
    have : (0 : ℤ) < (periodsPerYear cfg : ℤ) := by exact_mod_cast hppy
    positivity
  unfold termPeriods
  omega

/-- For a positive term, the initial repayment payment is exactly the
annuity-or-straight-line rule applied to the draw-phase ending balance
over the full repayment term. -/
theorem repayInit_payment_reamortize (cfg : Config) (s : SimState)
    (h2 : 0 < cfg.termInYears) :
    (repayInit cfg s).payment =
      reamortize s.remainingBalance (s.currentAnnualRate / 100 / (periodsPerYear cfg : ℚ))
        (termPeriods cfg) := by
  have hppy := periodsPerYear_pos cfg
  have hnZ : 0 < cfg.termInYears * (periodsPerYear cfg : ℤ) := by
    have : (0 : ℤ) < (periodsPerYear cfg : ℤ) := by exact_mod_cast hppy
    positivity
  rw [repayInit_payment]
  unfold reamortize
  by_cases hr : 0 < s.currentAnnualRate / 100 / (periodsPerYear cfg : ℚ)
  · rw [if_pos ⟨hnZ, hr⟩, if_pos hr]
  · rw [if_neg (fun hh => hr hh.2), if_pos hnZ, if_neg hr]

theorem repayInit_payInv (cfg : Config) (s0 : SimState) (h2 : 0 < cfg.termInYears)
    (hb : 0 ≤ s0.remainingBalance) :
    PayInv cfg (termPeriods cfg) (repayInit cfg s0) := by
  have hn1 := termPeriods_pos cfg h2
  refine ⟨hb, ?_, rfl, ?_, ?_⟩
  · rw [repayInit_payment_reamortize cfg s0 h2]
    exact reamortize_nonneg _ _ hb _ hn1
  · intro hr
    rw [repayInit_payment_reamortize cfg s0 h2]
    rw [repayInit_rate] at hr
    exact (reamortize_payInv s0.remainingBalance _ hb _ hn1).1 hr
  · intro hr
    rw [repayInit_payment_reamortize cfg s0 h2]
    rw [repayInit_rate] at hr
    exact (reamortize_payInv s0.remainingBalance _ hb _ hn1).2 hr

theorem repayStateAt_payInv (cfg : Config) (s0 : SimState) (h2 : 0 < cfg.termInYears)
    (hb : 0 ≤ s0.remainingBalance) :
    ∀ k, k ≤ termPeriods cfg →
      PayInv cfg (termPeriods cfg - k) (repayStateAt cfg s0 k) := by
  intro k
  induction k with
  | zero =>
    intro _
    rw [repayStateAt_zero, Nat.sub_zero]
    exact repayInit_payInv cfg s0 h2 hb
  | succ k ih =>
    intro hk
    rw [repayStateAt_succ]
    have hprev := ih (by omega)
    have hm : termPeriods cfg - k = (termPeriods cfg - (k + 1)) + 1 := by omega
    rw [hm] at hprev
    have hreset := repayReset_payInv cfg (termPeriods cfg) (repayStateAt cfg s0 k) (k + 1)
      ((termPeriods cfg - (k + 1)) + 1) (by omega) (by omega) hprev
    exact (repayStep_payInv cfg (termPeriods cfg) _ (k + 1) _ hreset).1

/-- The repayment loop drives the balance to exactly 0 by its last
iteration. -/
theorem repay_final_balance (cfg : Config) (s0 : SimState) (h2 : 0 < cfg.termInYears)
    (hb : 0 ≤ s0.remainingBalance) :
    (repayStateAt cfg s0 (termPeriods cfg)).remainingBalance = 0 := by
  have h := repayStateAt_payInv cfg s0 h2 hb (termPeriods cfg) (le_refl _)
  rw [Nat.sub_self] at h
  obtain ⟨hbz, hp, hRC, h1, h0⟩ := h
  by_cases hr : 0 < (repayStateAt cfg s0 (termPeriods cfg)).repaymentPeriodicRate
  · have hle := h1 hr
    have e : pvFactor 0 (repayStateAt cfg s0 (termPeriods cfg)).repaymentPeriodicRate = 0 := rfl
    rw [e, mul_zero] at hle
    linarith
  · have hle := h0 (not_lt.1 hr)
    norm_num at hle
    linarith

/-! ### Self-consistency of the level payment (for C2) -/

/-- All rates that can ever be in effect are non-negative. -/
def ratesNonneg (cfg : Config) : Prop :=
  0 ≤ cfg.annualRate ∧ ∀ rc ∈ cfg.rateChanges, 0 ≤ rc.newTotalAPR

theorem mem_insertByPeriod (x a : RateChange) (l : List RateChange)
    (h : a ∈ insertByPeriod x l) : a = x ∨ a ∈ l := by
  induction l with
  | nil =>
    simp [insertByPeriod] at h
    exact Or.inl h
  | cons y ys ih =>
    unfold insertByPeriod at h
    split at h
    · simpa using h
    · rcases List.mem_cons.1 h with h1 | h1
      · exact Or.inr (List.mem_cons.2 (Or.inl h1))
      · rcases ih h1 with h2 | h2
        · exact Or.inl h2
        · exact Or.inr (List.mem_cons.2 (Or.inr h2))

theorem mem_sortByPeriod (a : RateChange) (l : List RateChange)
    (h : a ∈ sortByPeriod l) : a ∈ l := by
  induction l generalizing a with
  | nil => exact absurd h (by simp [sortByPeriod])
  | cons y ys ih =>
    unfold sortByPeriod at h
    rcases mem_insertByPeriod y a (sortByPeriod ys) h with h1 | h1
    · exact List.mem_cons.2 (Or.inl h1)
    · exact List.mem_cons.2 (Or.inr (ih a h1))

theorem findRate_mem (cfg : Config) (g : ℕ) (rc : RateChange)
    (h : findRate cfg g = some rc) : rc ∈ cfg.rateChanges := by
  unfold findRate at h
  exact mem_sortByPeriod rc _ (List.mem_of_find?_eq_some h)

theorem findRate_nonneg (cfg : Config) (hnn : ratesNonneg cfg) (g : ℕ) (rc : RateChange)
    (h : findRate cfg g = some rc) : 0 ≤ rc.newTotalAPR :=
  hnn.2 rc (findRate_mem cfg g rc h)

theorem initState_currentAnnualRate (cfg : Config) :
    (initState cfg).currentAnnualRate = cfg.annualRate := by
  unfold initState
  split <;> rfl

theorem aprAt_nonneg (cfg : Config) (hnn : ratesNonneg cfg) (prevApr : ℚ)
    (hprev : 0 ≤ prevApr) (g : ℕ) : 0 ≤ aprAt cfg prevApr g := by
  unfold aprAt
  cases hfr : findRate cfg g
  · exact hprev
  · next rc => exact findRate_nonneg cfg hnn g rc hfr

theorem drawStateAt_apr_nonneg (cfg : Config) (hnn : ratesNonneg cfg) (k : ℕ) :
    0 ≤ (drawStateAt cfg k).currentAnnualRate := by
  induction k with
  | zero =>
    rw [drawStateAt_zero, initState_currentAnnualRate]
    exact hnn.1
  | succ k ih =>
    rw [drawStateAt_succ]
    exact aprAt_nonneg cfg hnn _ ih (k + 1)

/-- `SelfCon cfg m s`: the stored level payment re-amortizes the current
balance over the `m` periods left (whenever the balance is positive), the
periodic rate tracks the annual rate, and both stay non-negative. -/
def SelfCon (cfg : Config) (m : ℕ) (s : SimState) : Prop :=
  RateCon cfg s ∧ 0 ≤ s.remainingBalance ∧ 0 ≤ s.payment ∧ 0 ≤ s.currentAnnualRate ∧
    (0 < s.remainingBalance →
      s.payment = reamortize s.remainingBalance s.repaymentPeriodicRate m)

theorem repayReset_selfCon (cfg : Config) (n : ℕ) (s : SimState) (i : ℕ) (m : ℕ)
    (hm : 1 ≤ m) (hpl : n - (i - 1) = m) (hnn : ratesNonneg cfg)
    (h : SelfCon cfg m s) : SelfCon cfg m (repayReset cfg n s i) := by
  obtain ⟨hRC, hb, hp, ha, hsc⟩ := h
  unfold repayReset
  cases hfr : findRate cfg (drawPeriods cfg + i)
  · exact ⟨hRC, hb, hp, ha, hsc⟩
  · next rc =>
    dsimp only
    rw [hpl]
    have harc : 0 ≤ rc.newTotalAPR := findRate_nonneg cfg hnn _ rc hfr
    by_cases hcond : 0 < s.remainingBalance ∧ 0 < m
    · rw [if_pos hcond]
      exact ⟨rfl, hb, reamortize_nonneg _ _ hb m hm, harc, fun _ => rfl⟩
    · rw [if_neg hcond]
      refine ⟨rfl, hb, hp, harc, ?_⟩
      intro hbpos
      exact absurd ⟨hbpos, by omega⟩ hcond

/-- A zero balance stays zero across a repayment step. -/
theorem repayStep_bal_zero (cfg : Config) (n : ℕ) (s : SimState) (i : ℕ)
    (hb0 : (repayReset cfg n s i).remainingBalance = 0)
    (hp : 0 ≤ (repayReset cfg n s i).payment) :
    (repayStep cfg n s i).remainingBalance = 0 := by
  rw [repayStep_remainingBalance, repayEntry_principal, repayInterest_eq, hb0, zero_mul]
  split
  · rw [sub_self]
  · next h =>
    have : (repayReset cfg n s i).payment ≤ 0 := by linarith [not_lt.1 h]
    have hpz : (repayReset cfg n s i).payment = 0 := le_antisymm this hp
    rw [hpz]
    norm_num

theorem repayStep_selfCon (cfg : Config) (n : ℕ) (s : SimState) (i : ℕ) (k : ℕ)
    (hx : cfg.interestCalculationMethod = .endOfPeriod ∨ cfg.repaymentCadence = .monthly)
    (h : SelfCon cfg (k + 1) (repayReset cfg n s i)) :
    SelfCon cfg k (repayStep cfg n s i) := by
  obtain ⟨hRC, hb, hp, ha, hsc⟩ := h
  have hint : repayInterest cfg (repayReset cfg n s i) =
      (repayReset cfg n s i).remainingBalance * (repayReset cfg n s i).repaymentPeriodicRate := by
    rw [repayInterest_eq, effRate_eq_rate cfg _ hRC hx]
  refine ⟨?_, repayStep_bal_nonneg cfg n s i, ?_, ?_, ?_⟩
  · show (repayStep cfg n s i).repaymentPeriodicRate = _ / 100 / _
    rw [repayStep_repaymentPeriodicRate, repayStep_currentAnnualRate]
    exact hRC
  · rw [repayStep_payment]
    exact hp
  · rw [repayStep_currentAnnualRate]
    exact ha
  · intro hbpos
    have hrnn : 0 ≤ (repayReset cfg n s i).repaymentPeriodicRate :=
      (rate_nonneg_iff cfg _ hRC).2 ha
    have hbt : 0 < (repayReset cfg n s i).remainingBalance := by
      by_contra hc
      have hb0 : (repayReset cfg n s i).remainingBalance = 0 :=
        le_antisymm (not_lt.1 hc) hb
      rw [repayStep_bal_zero cfg n s i hb0 hp] at hbpos
      exact lt_irrefl 0 hbpos
    have hpay : (repayReset cfg n s i).payment =
        reamortize (repayReset cfg n s i).remainingBalance
          (repayReset cfg n s i).repaymentPeriodicRate (k + 1) := hsc hbt
    rw [repayStep_payment, repayStep_repaymentPeriodicRate]
    by_cases hr : 0 < (repayReset cfg n s i).repaymentPeriodicRate
    · -- positive rate: annuity self-consistency
      have hpay' : (repayReset cfg n s i).payment =
          annuity (repayReset cfg n s i).remainingBalance
            (repayReset cfg n s i).repaymentPeriodicRate (k + 1) := by
        rw [hpay]
        unfold reamortize
        rw [if_pos hr]
      have hle : (repayReset cfg n s i).payment ≤
          (repayReset cfg n s i).remainingBalance *
            (1 + (repayReset cfg n s i).repaymentPeriodicRate) := by
        rw [hpay']
        exact annuity_le _ _ hb hr (k + 1) (by omega)
      have hnoclamp : ¬((repayReset cfg n s i).remainingBalance -
          ((repayReset cfg n s i).payment - repayInterest cfg (repayReset cfg n s i)) < 0) := by
        rw [hint]
        intro hcon
        nlinarith [hle]
      have hbal : (repayStep cfg n s i).remainingBalance =
          (repayReset cfg n s i).remainingBalance *
              (1 + (repayReset cfg n s i).repaymentPeriodicRate) -
            (repayReset cfg n s i).payment := by
        rw [repayStep_remainingBalance, repayEntry_principal, if_neg hnoclamp, hint]
        ring
      -- k = 0 would force the final balance to 0, contradicting positivity
      obtain ⟨k1, rfl⟩ : ∃ k1, k = k1 + 1 := by
        rcases Nat.eq_zero_or_pos k with rfl | hk
        · exfalso
          rw [hbal, hpay', annuity_one _ _ hr] at hbpos
          rw [show (repayReset cfg n s i).remainingBalance *
              (1 + (repayReset cfg n s i).repaymentPeriodicRate) -
              (repayReset cfg n s i).remainingBalance *
              (1 + (repayReset cfg n s i).repaymentPeriodicRate) = 0 by ring] at hbpos
          exact lt_irrefl 0 hbpos
        · exact ⟨k - 1, by omega⟩
      unfold reamortize
      rw [if_pos hr, hbal, hpay']
      exact (annuity_recurrence _ _ hr (k1 + 1) (by omega)).symm
    · -- zero rate: straight-line self-consistency
      have hr0 : (repayReset cfg n s i).repaymentPeriodicRate = 0 :=
        le_antisymm (not_lt.1 hr) hrnn
      have hpay' : (repayReset cfg n s i).payment =
          (repayReset cfg n s i).remainingBalance / ((k : ℚ) + 1) := by
        rw [hpay]
        unfold reamortize
        rw [if_neg hr]
        push_cast
        rfl
      have hint0 : repayInterest cfg (repayReset cfg n s i) = 0 := by
        rw [hint, hr0, mul_zero]
      have hple : (repayReset cfg n s i).payment ≤ (repayReset cfg n s i).remainingBalance := by
        rw [hpay']
        apply div_le_self hb
        have : (0 : ℚ) ≤ (k : ℚ) := by positivity
        linarith
      have hnoclamp : ¬((repayReset cfg n s i).remainingBalance -
          ((repayReset cfg n s i).payment - repayInterest cfg (repayReset cfg n s i)) < 0) := by
        rw [hint0]
        intro hcon
        linarith
      have hbal : (repayStep cfg n s i).remainingBalance =
          (repayReset cfg n s i).remainingBalance - (repayReset cfg n s i).payment := by
        rw [repayStep_remainingBalance, repayEntry_principal, if_neg hnoclamp, hint0]
        ring
      obtain ⟨k1, rfl⟩ : ∃ k1, k = k1 + 1 := by
        rcases Nat.eq_zero_or_pos k with rfl | hk
        · exfalso
          rw [hbal, hpay'] at hbpos
          norm_num at hbpos
        · exact ⟨k - 1, by omega⟩
      unfold reamortize
      rw [if_neg hr, hbal, hpay']
      have hk1 : ((k1 : ℚ) + 1) ≠ 0 := by positivity
      have hk2 : ((k1 : ℚ) + 1 + 1) ≠ 0 := by positivity
      push_cast
      field_simp
      ring

theorem repayInit_selfCon (cfg : Config) (s0 : SimState) (h2 : 0 < cfg.termInYears)
    (hb : 0 ≤ s0.remainingBalance) (ha : 0 ≤ s0.currentAnnualRate) :
    SelfCon cfg (termPeriods cfg) (repayInit cfg s0) := by
  refine ⟨rfl, hb, ?_, ha, ?_⟩
  · rw [repayInit_payment_reamortize cfg s0 h2]
    exact reamortize_nonneg _ _ hb _ (termPeriods_pos cfg h2)
  · intro _
    exact repayInit_payment_reamortize cfg s0 h2

theorem repayStateAt_selfCon (cfg : Config) (s0 : SimState) (h2 : 0 < cfg.termInYears)
    (hb : 0 ≤ s0.remainingBalance) (ha : 0 ≤ s0.currentAnnualRate)
    (hnn : ratesNonneg cfg)
    (hx : cfg.interestCalculationMethod = .endOfPeriod ∨ cfg.repaymentCadence = .monthly) :
    ∀ k, k ≤ termPeriods cfg →
      SelfCon cfg (termPeriods cfg - k) (repayStateAt cfg s0 k) := by
  intro k
  induction k with
  | zero =>
    intro _
    rw [repayStateAt_zero, Nat.sub_zero]
    exact repayInit_selfCon cfg s0 h2 hb ha
  | succ k ih =>
    intro hk
    rw [repayStateAt_succ]
    have hprev := ih (by omega)
    have hm : termPeriods cfg - k = (termPeriods cfg - (k + 1)) + 1 := by omega
    rw [hm] at hprev
    have hreset := repayReset_selfCon cfg (termPeriods cfg) (repayStateAt cfg s0 k) (k + 1)
      ((termPeriods cfg - (k + 1)) + 1) (by omega) (by omega) hnn hprev
    exact repayStep_selfCon cfg (termPeriods cfg) _ (k + 1) _ hx hreset

/-! ### C2: re-amortization at a repayment-phase rate change -/

theorem runRepay_eq_of_pos (cfg : Config) (hB : 0 < (runDraw cfg).remainingBalance) :
    runRepay cfg (runDraw cfg) = repayStateAt cfg (runDraw cfg) (termPeriods cfg) := by
  unfold runRepay
  rw [if_pos hB]

/-- C2 (amended): (a) whenever the repayment phase runs, the last schedule
entry's ending balance is exactly 0 — the schedule always fully retires
the balance; (b) a rate-change event on repayment global period
`drawPeriods + (k+1)` re-computes the level payment from the current
balance over the `termPeriods - k` periods left by the
annuity-or-straight-line rule; and (c) the recomputed payment differs
from the level payment previously in effect whenever the new annual rate
differs from the old one, *provided* interest accrual applies the
periodic rate exactly (`endOfPeriod`, or `adb` with monthly cadence) and
every rate in play is non-negative.  (As frozen, the claim asserted (c)
without the proviso; with a zero old rate and a negative new rate both
collapse to the straight-line payment and the recomputed payment is
unchanged.) -/
theorem C2_reamortization (cfg : Config)
    (h1 : 0 ≤ cfg.annualRate) (h2 : 0 < cfg.termInYears)
    (hB : 0 < (runDraw cfg).remainingBalance) :
    (∀ e, (calculateAmortization cfg).schedule.getLast? = some e →
        e.remainingBalance = 0) ∧
      ∀ k rc, k + 1 ≤ termPeriods cfg →
        findRate cfg (drawPeriods cfg + (k + 1)) = some rc →
        (0 < (repayStateAt cfg (runDraw cfg) k).remainingBalance →
          (repayStateAt cfg (runDraw cfg) (k + 1)).payment =
            reamortize (repayStateAt cfg (runDraw cfg) k).remainingBalance
              (rc.newTotalAPR / 100 / (periodsPerYear cfg : ℚ)) (termPeriods cfg - k)) ∧
        ((cfg.interestCalculationMethod = .endOfPeriod ∨ cfg.repaymentCadence = .monthly) →
          (∀ rc2 ∈ cfg.rateChanges, 0 ≤ rc2.newTotalAPR) →
          0 < (repayStateAt cfg (runDraw cfg) k).remainingBalance →
          rc.newTotalAPR ≠ (repayStateAt cfg (runDraw cfg) k).currentAnnualRate →
          (repayStateAt cfg (runDraw cfg) (k + 1)).payment ≠
            (repayStateAt cfg (runDraw cfg) k).payment) := by
  have hb0 : 0 ≤ (runDraw cfg).remainingBalance := le_of_lt hB
  constructor
  · -- (a) full retirement
    intro e he
    rw [calc_schedule_eq cfg h1 h2] at he
    have ht := (runRepay_traceInv cfg).2.2.1
    rw [he] at ht
    rw [runRepay_eq_of_pos cfg hB] at ht
    rw [repay_final_balance cfg (runDraw cfg) h2 hb0] at ht
    exact ht
  · intro k rc hk hfr
    have hrule : 0 < (repayStateAt cfg (runDraw cfg) k).remainingBalance →
        (repayStateAt cfg (runDraw cfg) (k + 1)).payment =
          reamortize (repayStateAt cfg (runDraw cfg) k).remainingBalance
            (rc.newTotalAPR / 100 / (periodsPerYear cfg : ℚ)) (termPeriods cfg - k) := by
      intro hbal
      rw [repayStateAt_succ, repayStep_payment]
      unfold repayReset
      rw [hfr]
      dsimp only
      simp only [Nat.add_sub_cancel]
      rw [if_pos ⟨hbal, by omega⟩]
    refine ⟨hrule, ?_⟩
    intro hx hrc hbal hdiff
    have hnn : ratesNonneg cfg := ⟨h1, hrc⟩
    have ha0 : 0 ≤ (runDraw cfg).currentAnnualRate :=
      drawStateAt_apr_nonneg cfg hnn (drawPeriods cfg)
    have hsc := repayStateAt_selfCon cfg (runDraw cfg) h2 hb0 ha0 hnn hx k (by omega)
    obtain ⟨hRC, hbnn, hpnn, hann, hscp⟩ := hsc
    have hold : (repayStateAt cfg (runDraw cfg) k).payment =
        reamortize (repayStateAt cfg (runDraw cfg) k).remainingBalance
          (repayStateAt cfg (runDraw cfg) k).repaymentPeriodicRate (termPeriods cfg - k) :=
      hscp hbal
    have hnew := hrule hbal
    rw [hnew, hold]
    have hrold : 0 ≤ (repayStateAt cfg (runDraw cfg) k).repaymentPeriodicRate :=
      (rate_nonneg_iff cfg _ hRC).2 hann
    have hrnew : 0 ≤ rc.newTotalAPR / 100 / (periodsPerYear cfg : ℚ) := by
      have := findRate_nonneg cfg hnn _ rc hfr
      positivity
    have hrne : rc.newTotalAPR / 100 / (periodsPerYear cfg : ℚ) ≠
        (repayStateAt cfg (runDraw cfg) k).repaymentPeriodicRate := by
      rw [hRC]
      intro hcon
      apply hdiff
      rw [div_div, div_div] at hcon
      have h100 : (100 * (periodsPerYear cfg : ℚ)) ≠ 0 := by
        have := ppy_cast_pos cfg
        positivity
      have hmul : rc.newTotalAPR / (100 * (periodsPerYear cfg : ℚ)) *
            (100 * (periodsPerYear cfg : ℚ)) =
          (repayStateAt cfg (runDraw cfg) k).currentAnnualRate /
              (100 * (periodsPerYear cfg : ℚ)) * (100 * (periodsPerYear cfg : ℚ)) := by
        rw [hcon]
      rw [div_mul_cancel₀ _ h100, div_mul_cancel₀ _ h100] at hmul
      exact hmul
    exact reamortize_ne _ hbal (termPeriods cfg - k) (by omega) _ _ hrnew hrold hrne

/-- The spec's worked scenario with a rate change to 6 % at global period
30 (repayment-phase period 6). -/
def cfgRateDemo : Config :=
  { cfgDemo with rateChanges := [{ period := 30, newTotalAPR := 6 }] }

theorem C2_reamortization_witness :
    0 ≤ cfgRateDemo.annualRate ∧ 0 < cfgRateDemo.termInYears ∧
      0 < (runDraw cfgRateDemo).remainingBalance ∧
      5 + 1 ≤ termPeriods cfgRateDemo ∧
      findRate cfgRateDemo (drawPeriods cfgRateDemo + (5 + 1)) =
        some { period := 30, newTotalAPR := 6 } ∧
      (cfgRateDemo.interestCalculationMethod = .endOfPeriod ∨
        cfgRateDemo.repaymentCadence = .monthly) ∧
      0 < (repayStateAt cfgRateDemo (runDraw cfgRateDemo) 5).remainingBalance ∧
      (6 : ℚ) ≠ (repayStateAt cfgRateDemo (runDraw cfgRateDemo) 5).currentAnnualRate ∧
      (repayStateAt cfgRateDemo (runDraw cfgRateDemo) (5 + 1)).payment ≠
        (repayStateAt cfgRateDemo (runDraw cfgRateDemo) 5).payment :=
  ⟨by decide, by decide, by decide, by decide, by decide, by decide, by decide, by decide,
    ((C2_reamortization cfgRateDemo (by decide) (by decide) (by decide)).2 5
        { period := 30, newTotalAPR := 6 } (by decide) (by decide)).2
      (by decide) (by decide) (by decide) (by decide)⟩

/-- A zero-rate loan whose rate drops to -5 % at global period 30: both
the old and the new payment are the straight-line payment. -/
def cfgZeroRate : Config :=
  { drawSchedule := [], initialDrawAmount := 1200, annualRate := 0, termInYears := 1
    originationFeePercent := 0, annualFee := 0, drawFee := 0, inactivityFee := 0
    monthlyMaintenanceFee := 0, borrowLimit := 1200, repaymentCadence := .monthly
    paymentPolicy := .interestOnly, balancePaymentPercent := 0, principalFloorAmount := 0
    rateChanges := [{ period := 30, newTotalAPR := -5 }]
    interestCalculationMethod := .endOfPeriod }

/-- C2 counterexample: at global period 30 the rate changes from 0 to
-5 with a positive balance, the payment is recomputed by the
annuity-or-straight-line rule, yet it equals the previous level payment
(both are the straight-line 100), refuting the frozen claim's "the
recomputed payment differs ... whenever the new rate differs from the
old". -/
theorem C2_reamortization_counterexample :
    0 ≤ cfgZeroRate.annualRate ∧ 0 < cfgZeroRate.termInYears ∧
      0 < (runDraw cfgZeroRate).remainingBalance ∧
      findRate cfgZeroRate (drawPeriods cfgZeroRate + 6) =
        some { period := 30, newTotalAPR := -5 } ∧
      (repayStateAt cfgZeroRate (runDraw cfgZeroRate) 5).currentAnnualRate = 0 ∧
      (-5 : ℚ) ≠ (repayStateAt cfgZeroRate (runDraw cfgZeroRate) 5).currentAnnualRate ∧
      0 < (repayStateAt cfgZeroRate (runDraw cfgZeroRate) 5).remainingBalance ∧
      (repayStateAt cfgZeroRate (runDraw cfgZeroRate) 6).payment =
        (repayStateAt cfgZeroRate (runDraw cfgZeroRate) 5).payment := by
  refine ⟨by decide, by decide, by decide, by decide, by decide, by decide, by decide, by decide⟩

/-! ### C7: the peak balance -/

theorem initState_peak_eq (cfg : Config) :
    (initState cfg).peakBalance = (initState cfg).remainingBalance := by
  unfold initState
  split <;> rfl

theorem ite_gt_max (a b : ℚ) : (if b > a then b else a) = max a b := by
  split
  · next h => exact (max_eq_right (le_of_lt h)).symm
  · next h => exact (max_eq_left (not_lt.1 h)).symm

theorem drawStep_peak (cfg : Config) (s : SimState) (i : ℕ) :
    (drawStep cfg s i).peakBalance =
      max s.peakBalance (s.remainingBalance + drawAt cfg s.remainingBalance i) :=
  ite_gt_max s.peakBalance (s.remainingBalance + drawAt cfg s.remainingBalance i)

/-- The structural "running maximum" lemma for the draw phase. -/
theorem drawStateAt_peak_succ (cfg : Config) (k : ℕ) :
    (drawStateAt cfg (k + 1)).peakBalance =
      max (drawStateAt cfg k).peakBalance
        ((drawStateAt cfg k).remainingBalance +
          drawAt cfg (drawStateAt cfg k).remainingBalance (k + 1)) := by
  rw [drawStateAt_succ]
  exact drawStep_peak cfg (drawStateAt cfg k) (k + 1)

theorem repayInit_peakBalance (cfg : Config) (s : SimState) :
    (repayInit cfg s).peakBalance = s.peakBalance := rfl

/-- The repayment phase never touches the peak. -/
theorem repayStateAt_peak (cfg : Config) (s0 : SimState) (k : ℕ) :
    (repayStateAt cfg s0 k).peakBalance = s0.peakBalance := by
  induction k with
  | zero => rw [repayStateAt_zero, repayInit_peakBalance]
  | succ k ih => rw [repayStateAt_succ, repayStep_peakBalance, ih]

/-- With a non-negative principal floor, the draw-phase principal payment
is never negative. -/
theorem drawPayPrin_nonneg (cfg : Config) (interest bal : ℚ) (hbal : 0 ≤ bal)
    (hfl : 0 ≤ cfg.principalFloorAmount) : 0 ≤ (drawPayPrin cfg interest bal).2 := by
  unfold drawPayPrin
  cases hpol : cfg.paymentPolicy <;> dsimp only
  · split
    · exact hbal
    · exact le_refl 0
  · split
    · exact hbal
    · exact sub_nonneg.2 (le_max_left interest _)
  · split
    · exact hbal
    · exact hfl

/-- Peak invariant for the draw phase (under a non-negative principal
floor): the balance never exceeds the running peak, the peak only grows,
and every recorded ending balance is below the peak. -/
def PeakInvD (cfg : Config) (s : SimState) : Prop :=
  0 ≤ s.remainingBalance ∧ s.remainingBalance ≤ s.peakBalance ∧
    (initState cfg).peakBalance ≤ s.peakBalance ∧
    ∀ e ∈ s.schedule, e.remainingBalance ≤ s.peakBalance

theorem drawStep_peakInvD (cfg : Config) (hfl : 0 ≤ cfg.principalFloorAmount)
    (s : SimState) (i : ℕ) (h : PeakInvD cfg s) : PeakInvD cfg (drawStep cfg s i) := by
  obtain ⟨hb, hbp, hip, hent⟩ := h
  have hbal1 : 0 ≤ s.remainingBalance + drawAt cfg s.remainingBalance i := by
    have := drawAt_nonneg cfg s.remainingBalance i
    linarith
  have hprin : 0 ≤ (drawPayPrin cfg
      (interestFor cfg (aprAt cfg s.currentAnnualRate i)
        (s.remainingBalance + drawAt cfg s.remainingBalance i))
      (s.remainingBalance + drawAt cfg s.remainingBalance i)).2 :=
    drawPayPrin_nonneg cfg _ _ hbal1 hfl
  have hpeak : (drawStep cfg s i).peakBalance =
      max s.peakBalance (s.remainingBalance + drawAt cfg s.remainingBalance i) :=
    drawStep_peak cfg s i
  have hble : (drawStep cfg s i).remainingBalance ≤ (drawStep cfg s i).peakBalance := by
    rw [hpeak, drawStep_remainingBalance, drawEntry_remainingBalance]
    have : (s.remainingBalance + drawAt cfg s.remainingBalance i) ≤
        max s.peakBalance (s.remainingBalance + drawAt cfg s.remainingBalance i) :=
      le_max_right _ _
    linarith
  refine ⟨drawStep_bal_nonneg cfg s i, hble, ?_, ?_⟩
  · rw [hpeak]
    exact le_trans hip (le_max_left _ _)
  · rw [drawStep_schedule]
    intro e he
    rcases List.mem_append.1 he with h1 | h1
    · rw [hpeak]
      exact le_trans (hent e h1) (le_max_left _ _)
    · rcases List.mem_singleton.1 h1 with rfl
      rw [← drawStep_remainingBalance]
      exact hble

theorem drawStateAt_peakInvD (cfg : Config) (hfl : 0 ≤ cfg.principalFloorAmount) (k : ℕ) :
    PeakInvD cfg (drawStateAt cfg k) := by
  induction k with
  | zero =>
    refine ⟨(initState_balInv cfg).1, le_of_eq (initState_peak_eq cfg).symm, le_refl _, ?_⟩
    rw [drawStateAt_zero, initState_schedule]
    intro e he
    cases he
  | succ k ih =>
    rw [drawStateAt_succ]
    exact drawStep_peakInvD cfg hfl _ (k + 1) ih

/-- The repayment-phase balance never rises above the draw-phase ending
balance. -/
theorem repayStateAt_bal_le (cfg : Config) (s0 : SimState) (h2 : 0 < cfg.termInYears)
    (hb : 0 ≤ s0.remainingBalance) :
    ∀ k, k ≤ termPeriods cfg →
      (repayStateAt cfg s0 k).remainingBalance ≤ s0.remainingBalance := by
  intro k
  induction k with
  | zero =>
    intro _
    rw [repayStateAt_zero, repayInit_remainingBalance]
  | succ k ih =>
    intro hk
    have hprev := repayStateAt_payInv cfg s0 h2 hb k (by omega)
    have hm : termPeriods cfg - k = (termPeriods cfg - (k + 1)) + 1 := by omega
    rw [hm] at hprev
    have hreset := repayReset_payInv cfg (termPeriods cfg) (repayStateAt cfg s0 k) (k + 1)
      ((termPeriods cfg - (k + 1)) + 1) (by omega) (by omega) hprev
    have hdec := (repayStep_payInv cfg (termPeriods cfg) _ (k + 1) _ hreset).2
    rw [repayStateAt_succ]
    calc (repayStep cfg (termPeriods cfg) (repayStateAt cfg s0 k) (k + 1)).remainingBalance
        ≤ (repayReset cfg (termPeriods cfg) (repayStateAt cfg s0 k) (k + 1)).remainingBalance :=
          hdec
      _ = (repayStateAt cfg s0 k).remainingBalance := repayReset_remainingBalance _ _ _ _
      _ ≤ s0.remainingBalance := ih (by omega)

/-- Every repayment-phase row's recorded ending balance stays below the
(unchanged) peak. -/
theorem repayStateAt_entries_le (cfg : Config) (s0 : SimState) (h2 : 0 < cfg.termInYears)
    (hb : 0 ≤ s0.remainingBalance) (hbp : s0.remainingBalance ≤ s0.peakBalance)
    (hent : ∀ e ∈ s0.schedule, e.remainingBalance ≤ s0.peakBalance) :
    ∀ k, k ≤ termPeriods cfg →
      ∀ e ∈ (repayStateAt cfg s0 k).schedule, e.remainingBalance ≤ s0.peakBalance := by
  intro k
  induction k with
  | zero =>
    intro _
    rw [repayStateAt_zero, repayInit_schedule]
    exact hent
  | succ k ih =>
    intro hk
    rw [repayStateAt_succ, repayStep_schedule]
    intro e he
    rcases List.mem_append.1 he with h1 | h1
    · exact ih (by omega) e h1
    · rcases List.mem_singleton.1 h1 with rfl
      have hrec : (repayEntry cfg
          (repayReset cfg (termPeriods cfg) (repayStateAt cfg s0 k) (k + 1))
          (k + 1)).remainingBalance =
          (repayStep cfg (termPeriods cfg) (repayStateAt cfg s0 k) (k + 1)).remainingBalance := by
        rw [repayEntry_remainingBalance_eq, repayStep_remainingBalance,
          if_neg (not_lt.2 (repay_sub_principal_nonneg cfg _ (k + 1)))]
      rw [hrec, ← repayStateAt_succ]
      calc (repayStateAt cfg s0 (k + 1)).remainingBalance
          ≤ s0.remainingBalance := repayStateAt_bal_le cfg s0 h2 hb (k + 1) hk
        _ ≤ s0.peakBalance := hbp

/-- C7 (amended): with a non-negative `principalFloorAmount`, the returned
`peakBalance` dominates every entry's recorded ending balance and the
(clamped) initial draw, and it is structurally the running maximum of the
balance sampled once per period right after the draw is applied (the
repayment phase leaves it unchanged).  (As frozen, the claim had no
proviso, but a negative principal floor makes draw-phase "payments" add
to the balance after the peak was sampled, pushing ending balances above
the recorded peak.) -/
theorem C7_peak_balance (cfg : Config)
    (h1 : 0 ≤ cfg.annualRate) (h2 : 0 < cfg.termInYears)
    (hfl : 0 ≤ cfg.principalFloorAmount) :
    (∀ e ∈ (calculateAmortization cfg).schedule,
        e.remainingBalance ≤ (calculateAmortization cfg).peakBalance) ∧
      (initState cfg).remainingBalance ≤ (calculateAmortization cfg).peakBalance ∧
      (initState cfg).peakBalance = (initState cfg).remainingBalance ∧
      (∀ k, (drawStateAt cfg (k + 1)).peakBalance =
        max (drawStateAt cfg k).peakBalance
          ((drawStateAt cfg k).remainingBalance +
            drawAt cfg (drawStateAt cfg k).remainingBalance (k + 1))) ∧
      (∀ k, (repayStateAt cfg (runDraw cfg) k).peakBalance = (runDraw cfg).peakBalance) := by
  have hD := drawStateAt_peakInvD cfg hfl (drawPeriods cfg)
  obtain ⟨hDb, hDbp, hDip, hDent⟩ := hD
  have hcalc : calculateAmortization cfg =
      { principalAndInterestPayment := (runRepay cfg (runDraw cfg)).payment
        peakBalance := (runRepay cfg (runDraw cfg)).peakBalance
        totalInterest := (runRepay cfg (runDraw cfg)).totalInterest
        totalPayment := (runRepay cfg (runDraw cfg)).totalDraws +
          (runRepay cfg (runDraw cfg)).totalInterest + (runRepay cfg (runDraw cfg)).totalFees
        totalFees := (runRepay cfg (runDraw cfg)).totalFees
        effectiveAPR :=
          if 0 < (runRepay cfg (runDraw cfg)).totalDraws ∧
              0 < ((runRepay cfg (runDraw cfg)).schedule.length : ℚ) /
                (periodsPerYear cfg : ℚ) then
            (((runRepay cfg (runDraw cfg)).totalInterest +
                  (runRepay cfg (runDraw cfg)).totalFees) /
                (runRepay cfg (runDraw cfg)).totalDraws /
              (((runRepay cfg (runDraw cfg)).schedule.length : ℚ) /
                (periodsPerYear cfg : ℚ))) * 100
          else 0
        schedule := (runRepay cfg (runDraw cfg)).schedule } := by
    unfold calculateAmortization
    rw [if_neg (guard_false cfg h1 h2)]
  have hpeak : (calculateAmortization cfg).peakBalance =
      (runRepay cfg (runDraw cfg)).peakBalance := by
    rw [hcalc]
  have hpeakD : (runRepay cfg (runDraw cfg)).peakBalance = (runDraw cfg).peakBalance := by
    unfold runRepay
    split
    · exact repayStateAt_peak cfg (runDraw cfg) (termPeriods cfg)
    · rfl
  refine ⟨?_, ?_, initState_peak_eq cfg, fun k => drawStateAt_peak_succ cfg k,
    fun k => repayStateAt_peak cfg (runDraw cfg) k⟩
  · intro e he
    rw [calc_schedule_eq cfg h1 h2] at he
    rw [hpeak, hpeakD]
    revert he
    unfold runRepay
    split
    · intro he
      exact repayStateAt_entries_le cfg (runDraw cfg) h2 hDb hDbp hDent
        (termPeriods cfg) (le_refl _) e he
    · intro he
      exact hDent e he
  · rw [hpeak, hpeakD]
    calc (initState cfg).remainingBalance = (initState cfg).peakBalance :=
        (initState_peak_eq cfg).symm
      _ ≤ (runDraw cfg).peakBalance := hDip

theorem C7_peak_balance_witness :
    0 ≤ cfgDemo.annualRate ∧ 0 < cfgDemo.termInYears ∧
      0 ≤ cfgDemo.principalFloorAmount ∧
      (initState cfgDemo).remainingBalance ≤ (calculateAmortization cfgDemo).peakBalance :=
  ⟨by decide, by decide, by decide,
    (C7_peak_balance cfgDemo (by decide) (by decide) (by decide)).2.1⟩

/-- A configuration with a negative principal floor: each draw-phase
period "pays" -100 of principal, raising the balance after the peak was
sampled. -/
def cfgNegFloor : Config :=
  { drawSchedule := [], initialDrawAmount := 0, annualRate := 0, termInYears := 1
    originationFeePercent := 0, annualFee := 0, drawFee := 0, inactivityFee := 0
    monthlyMaintenanceFee := 0, borrowLimit := 0, repaymentCadence := .monthly
    paymentPolicy := .interestPlusPrincipalFloor, balancePaymentPercent := 0
    principalFloorAmount := -100, rateChanges := [], interestCalculationMethod := .endOfPeriod }

/-- C7 counterexample: with `principalFloorAmount = -100` the entry of
draw period 24 records an ending balance of 2400 while the returned
`peakBalance` is 2300, refuting the frozen claim's unconditional
"peakBalance ≥ every entry's ending balance". -/
theorem C7_peak_balance_counterexample :
    ((calculateAmortization cfgNegFloor).schedule.getD 23 default).remainingBalance = 2400 ∧
      (calculateAmortization cfgNegFloor).peakBalance = 2300 ∧
      ¬(((calculateAmortization cfgNegFloor).schedule.getD 23 default).remainingBalance ≤
        (calculateAmortization cfgNegFloor).peakBalance) := by
  refine ⟨by decide, by decide, by decide⟩

theorem C10_connected_trace_witness :
    (calculateAmortization cfgDemo).schedule.head? =
        some ((calculateAmortization cfgDemo).schedule.headD default) ∧
      ((calculateAmortization cfgDemo).schedule.headD default).beginningBalance =
        (initState cfgDemo).remainingBalance :=
  ⟨by decide, (C10_connected_trace cfgDemo).2 _ (by decide)⟩

end BusinessLoc
